import Mathlib

/-!
The batched ingestion pipeline of sales-analysis, `analysis/data.go`: a
shallow embedding of `RefreshData` and `executeBatch`.

* A Go string is a `String`, its bytes read as characters (the byte of "$"
  occurs in UTF-8 text only as that character); a `[]any` row of strings is a
  `List String`.
* The CSV source is the list of its physical records, each already split into
  fields or undecodable; `readRecord` is the field-count check of
  `encoding/csv` for a reader whose `FieldsPerRecord` was left at 0.
* The database is an environment: what `Begin`, every `Exec` and `Commit`
  answer is given by `Env`/`Tx`; the run returns the sequence of operations it
  performed (`Event`) together with its `Outcome`.
* `log.Printf` calls and the counter `totalRecords`, which only feeds them, are
  left out; `defer file.Close()` has no effect on what is modelled.
-/

namespace SalesAnalysis

/-! ## Strings -/

/-- Go `strings.HasPrefix(s, pfx)`. -/
def HasPrefix (s pfx : String) : Bool :=
  pfx.data.isPrefixOf s.data

/-- Go `strings.TrimPrefix(s, pfx)`: `s` without the leading `pfx`, or `s`
itself when it does not start with `pfx`. -/
def TrimPrefix (s pfx : String) : String :=
  if HasPrefix s pfx then ⟨s.data.drop pfx.data.length⟩ else s

/-! ## The CSV reader -/

/-- One physical record of the source file: split into fields, or one the
reader cannot decode (`cause` is the reader's error text). -/
inductive Line where
  | fields (fs : List String)
  | bad (cause : String)
  deriving DecidableEq, Repr

/-- What one call of `reader.Read()` returns. -/
inductive ReadResult where
  | record (r : List String)
  | eof
  | err (cause : String)
  deriving DecidableEq, Repr

/-- The text of `csv.ErrFieldCount`. The reader wraps it in a `ParseError`
that adds the position in the file, which is not modelled. -/
def ErrFieldCount : String := "wrong number of fields"

/-- The field-count part of `csv.Reader.readRecord`, for one record and the
current value of `FieldsPerRecord`: a positive value is enforced, the value 0
is replaced by the field count of the record just read. Returns the result
and the new `FieldsPerRecord`. -/
def readRecord (FieldsPerRecord : Nat) : Line → Except String (List String) × Nat
  | .bad cause => (.error cause, FieldsPerRecord)
  | .fields fs =>
    if FieldsPerRecord > 0 then
      if fs.length ≠ FieldsPerRecord then (.error ErrFieldCount, FieldsPerRecord)
      else (.ok fs, FieldsPerRecord)
    else (.ok fs, fs.length)

/-! ## The store interface -/

/-- The three tables written by the pipeline. -/
inductive Table where
  | customers
  | products
  | orders
  deriving DecidableEq, Repr

/-- Number of columns, that is of `?` placeholders per value group. -/
def Table.arity : Table → Nat
  | .customers => 4
  | .products => 3
  | .orders => 10

/-- An open transaction as the run sees it: `execErr k` is the answer of the
`k`-th `Exec` still to come (`none` for success), `commitErr` that of `Commit`. -/
structure Tx where
  execErr : Nat → Option String
  commitErr : Option String

/-- The answer of `tx.Exec` and the transaction afterwards. -/
def Tx.Exec (tx : Tx) : Option String × Tx :=
  (tx.execErr 0, { tx with execErr := fun k => tx.execErr (k + 1) })

/-- Everything outside the program that a run of `RefreshData` depends on. -/
structure Env where
  /-- error of `os.Open`, if any -/
  openErr : Option String
  /-- the records of the file, the header first -/
  lines : List Line
  /-- error of `db.Begin`, if any -/
  beginErr : Option String
  /-- the transaction `db.Begin` hands out -/
  tx : Tx

/-- The operations of a run, in the order they are performed. -/
inductive Event where
  | openFile (err : Option String)
  | read (res : ReadResult)
  | txBegin (err : Option String)
  /-- the call of `executeBatch` with these three buffers -/
  | batch (customers products orders : List (List String))
  /-- the call `tx.Exec` of the upsert on `table`, its query holding `groups`
  value groups, with the positional arguments `args` -/
  | exec (table : Table) (groups : Nat) (args : List String) (err : Option String)
  | commit (err : Option String)
  | rollback
  deriving DecidableEq, Repr

/-- How a call ends: `return nil`, `return err`, or a run-time panic. -/
inductive Outcome where
  | ok
  | error (msg : String)
  | panic
  deriving DecidableEq, Repr

/-! ## `executeBatch` -/

/-- The slices `customerVals`, `productVals`, `orderVals`: the rows appended
one after the other. -/
def flattenVals (rows : List (List String)) : List String :=
  rows.foldl (fun vals row => vals ++ row) []

/-- The function `executeBatch`: three upserts in the order customers,
products, orders, returning at the first `Exec` that fails. Returns the
statements issued, the error, and the transaction afterwards. The query text
is represented by its table and its number of value groups. -/
def executeBatch (tx : Tx) (customers products orders : List (List String)) :
    List Event × Option String × Tx :=
  let customerVals := flattenVals customers
  match tx.Exec with
  | (some err, tx1) =>
    ([.exec .customers customers.length customerVals (some err)],
      some ("error batch inserting customers: " ++ err), tx1)
  | (none, tx1) =>
    let productVals := flattenVals products
    match tx1.Exec with
    | (some err, tx2) =>
      ([.exec .customers customers.length customerVals none,
        .exec .products products.length productVals (some err)],
        some ("error batch inserting products: " ++ err), tx2)
    | (none, tx2) =>
      let orderVals := flattenVals orders
      match tx2.Exec with
      | (some err, tx3) =>
        ([.exec .customers customers.length customerVals none,
          .exec .products products.length productVals none,
          .exec .orders orders.length orderVals (some err)],
          some ("error batch inserting orders: " ++ err), tx3)
      | (none, tx3) =>
        ([.exec .customers customers.length customerVals none,
          .exec .products products.length productVals none,
          .exec .orders orders.length orderVals none], none, tx3)

/-! ## `RefreshData` -/

/-- The index expression `record[i]`; `none` stands for the run-time panic of
an index out of range. -/
def index (record : List String) (i : Nat) : Option String :=
  record.get? i

/-- The `[]any` literal appended to `customers` (lines 50-52). -/
def customerRow (record : List String) : Option (List String) :=
  (index record 2).bind fun c0 => (index record 12).bind fun c1 =>
  (index record 13).bind fun c2 => (index record 14).bind fun c3 =>
  some [c0, c1, c2, c3]

/-- The `[]any` literal appended to `products` (lines 53-55). -/
def productRow (record : List String) : Option (List String) :=
  (index record 1).bind fun p0 => (index record 3).bind fun p1 =>
  (index record 4).bind fun p2 => some [p0, p1, p2]

/-- The `[]any` literal appended to `orders` (lines 56-60). -/
def orderRow (record : List String) : Option (List String) :=
  (index record 0).bind fun o0 => (index record 2).bind fun o1 =>
  (index record 1).bind fun o2 => (index record 5).bind fun o3 =>
  (index record 6).bind fun o4 => (index record 7).bind fun o5 =>
  (index record 8).bind fun o6 => (index record 9).bind fun o7 =>
  (index record 10).bind fun o8 => (index record 11).bind fun o9 =>
  some [o0, o1, o2, o3, o4, o5, TrimPrefix o6 "$", o7, TrimPrefix o8 "$", o9]

/-- The three rows built from one record by the loop body (lines 50-60), in
the order the literals are evaluated; `none` when an index panics. -/
def projections (record : List String) :
    Option (List String × List String × List String) :=
  (customerRow record).bind fun customer => (productRow record).bind fun product =>
  (orderRow record).bind fun order => some (customer, product, order)

/-- The code after the `for` loop: the final partial batch, then `Commit`. -/
def finish (tx : Tx) (customers products orders : List (List String))
    (count : Nat) : List Event × Outcome :=
  if count > 0 then
    match executeBatch tx customers products orders with
    | (evs, some err, _) =>
      (.batch customers products orders :: evs ++ [.rollback],
        .error ("error in final batch: " ++ err))
    | (evs, none, tx1) =>
      match tx1.commitErr with
      | some err =>
        (.batch customers products orders :: evs ++ [.commit (some err), .rollback],
          .error ("error committing transaction: " ++ err))
      | none => (.batch customers products orders :: evs ++ [.commit none], .ok)
  else
    match tx.commitErr with
    | some err =>
      ([.commit (some err), .rollback], .error ("error committing transaction: " ++ err))
    | none => ([.commit none], .ok)

/-- The `for` loop of `RefreshData` followed by the code after it, started on
the records still unread. `batchSize` is the constant of that name. -/
def loop (batchSize : Nat) : List Line → Nat → Tx →
    List (List String) → List (List String) → List (List String) → Nat → Nat →
    List Event × Outcome
  | [], _, tx, customers, products, orders, count, _ =>
    let (evs, out) := finish tx customers products orders count
    (.read .eof :: evs, out)
  | line :: rest, FieldsPerRecord, tx, customers, products, orders, count, batchNum =>
    match readRecord FieldsPerRecord line with
    | (.error cause, _) =>
      ([.read (.err cause), .rollback], .error ("error reading CSV: " ++ cause))
    | (.ok record, FieldsPerRecord) =>
      match projections record with
      | none => ([.read (.record record)], .panic)
      | some (customer, product, order) =>
        let customers := customers ++ [customer]
        let products := products ++ [product]
        let orders := orders ++ [order]
        let count := count + 1
        if count ≥ batchSize then
          let batchNum := batchNum + 1
          match executeBatch tx customers products orders with
          | (evs, some err, _) =>
            (.read (.record record) :: .batch customers products orders :: evs ++ [.rollback],
              .error ("error in batch " ++ toString batchNum ++ ": " ++ err))
          | (evs, none, tx1) =>
            let (more, out) := loop batchSize rest FieldsPerRecord tx1 [] [] [] 0 batchNum
            (.read (.record record) :: .batch customers products orders :: evs ++ more, out)
        else
          let (more, out) :=
            loop batchSize rest FieldsPerRecord tx customers products orders count batchNum
          (.read (.record record) :: more, out)

/-- The constant `batchSize` of `RefreshData`. -/
def batchSize : Nat := 1000

/-- The function `RefreshData`, for a batch size given as a parameter: the
operations performed and the outcome. -/
def RefreshDataWith (cap : Nat) (env : Env) : List Event × Outcome :=
  match env.openErr with
  | some err => ([.openFile (some err)], .error ("error opening file: " ++ err))
  | none =>
    match env.lines with
    | [] => ([.openFile none, .read .eof], .error "error reading header: EOF")
    | header :: rest =>
      match readRecord 0 header with
      | (.error cause, _) =>
        ([.openFile none, .read (.err cause)], .error ("error reading header: " ++ cause))
      | (.ok h, FieldsPerRecord) =>
        match env.beginErr with
        | some err =>
          ([.openFile none, .read (.record h), .txBegin (some err)],
            .error ("error starting transaction: " ++ err))
        | none =>
          let (evs, out) := loop cap rest FieldsPerRecord env.tx [] [] [] 0 0
          (.openFile none :: .read (.record h) :: .txBegin none :: evs, out)

/-- The function `RefreshData`, with its constant `batchSize = 1000`. -/
def RefreshData (env : Env) : List Event × Outcome :=
  RefreshDataWith batchSize env


/-! ## Observers of a run -/

/-- The buffers of every call of `executeBatch`, in call order. -/
def batchesOf (evs : List Event) :
    List (List (List String) × List (List String) × List (List String)) :=
  evs.filterMap fun e =>
    match e with
    | .batch customers products orders => some (customers, products, orders)
    | _ => none

/-- The argument lists handed to `Exec` for the statements on `table`, in
call order. -/
def argsOf (table : Table) (evs : List Event) : List (List String) :=
  evs.filterMap fun e =>
    match e with
    | .exec t _ args _ => if t = table then some args else none
    | _ => none

/-- The answers of the `Commit` calls of a run, in call order. -/
def commitsOf (evs : List Event) : List (Option String) :=
  evs.filterMap fun e =>
    match e with
    | .commit err => some err
    | _ => none

/-- The cause carried by an operation that failed inside the transaction: a
record that cannot be decoded, a failed statement, a failed commit. -/
def failureCause : Event → Option String
  | .read (.err cause) => some cause
  | .exec _ _ _ (some cause) => some cause
  | .commit (some cause) => some cause
  | _ => none

/-- The error text `executeBatch` builds for a failed statement on `table`. -/
def insertError (table : Table) (cause : String) : String :=
  match table with
  | .customers => "error batch inserting customers: " ++ cause
  | .products => "error batch inserting products: " ++ cause
  | .orders => "error batch inserting orders: " ++ cause

/-! ## A model of the store

Each table maps an identifier to the non-key fields of its row. An upsert
statement binds its positional arguments to its value groups, in order, and
writes the rows one after the other, a row replacing the non-key fields of an
existing identifier. Statements act on the pending state of the transaction;
`Commit` makes it the content of the store, `Rollback` drops it. -/

/-- One table: identifier to non-key fields. -/
abbrev TableMap := String → Option (List String)

/-- The three tables. -/
structure Store where
  customers : TableMap
  products : TableMap
  orders : TableMap

/-- Insert `row`, or overwrite the non-key fields of the row with its
identifier. -/
def upsertRow (m : TableMap) (row : List String) : TableMap :=
  match row with
  | [] => m
  | id :: fields => fun k => if k = id then some fields else m k

/-- Upsert `rows` one after the other. -/
def upsertRows (m : TableMap) (rows : List (List String)) : TableMap :=
  rows.foldl upsertRow m

/-- The rows of a statement on `table` with `groups` value groups: group `i`
takes the arguments `i * arity .. i * arity + arity - 1`. -/
def stmtRows (table : Table) (groups : Nat) (args : List String) : List (List String) :=
  (List.range groups).map fun i => (args.drop (i * table.arity)).take table.arity

/-- The store after an upsert of `rows` into `table`. -/
def Store.upsert (s : Store) (table : Table) (rows : List (List String)) : Store :=
  match table with
  | .customers => { s with customers := upsertRows s.customers rows }
  | .products => { s with products := upsertRows s.products rows }
  | .orders => { s with orders := upsertRows s.orders rows }

/-- The database: committed content and, while a transaction is open, its
pending content. -/
structure DB where
  committed : Store
  pending : Option Store

/-- Effect of one operation of a run on the database. A failed statement
writes nothing; reads of the source do not touch the database. -/
def DB.step (db : DB) : Event → DB
  | .txBegin none => { db with pending := some db.committed }
  | .exec table groups args none =>
    { db with pending := db.pending.map fun s => s.upsert table (stmtRows table groups args) }
  | .commit none =>
    match db.pending with
    | some s => { committed := s, pending := none }
    | none => db
  | .rollback => { db with pending := none }
  | _ => db

/-- The database after the operations `evs`. -/
def DB.run (db : DB) (evs : List Event) : DB :=
  evs.foldl DB.step db

/-- Content of the store after a run that started on the content `s`. -/
def storeAfter (s : Store) (evs : List Event) : Store :=
  (DB.run { committed := s, pending := none } evs).committed

/-! ## Shapes of runs used in the statements -/

/-- The operations of one call of `executeBatch` in which every statement
succeeds, the call itself included. -/
def batchEvents (customers products orders : List (List String)) : List Event :=
  [.batch customers products orders,
   .exec .customers customers.length (flattenVals customers) none,
   .exec .products products.length (flattenVals products) none,
   .exec .orders orders.length (flattenVals orders) none]

/-- The operations of the loop and of the code after it in a run that returns
`nil`, from the buffers `customers`, `products`, `orders` with counter `count`
over the records `rs` still to be read. -/
inductive OkRun (cap : Nat) : List (List String) → List (List String) → List (List String) →
    Nat → List (List String) → List Event → Prop where
  | eof (customers products orders : List (List String)) :
    OkRun cap customers products orders 0 [] [.read .eof, .commit none]
  | final (customers products orders : List (List String)) (count : Nat) (h : 0 < count) :
    OkRun cap customers products orders count []
      (.read .eof :: batchEvents customers products orders ++ [.commit none])
  | keep {customers products orders : List (List String)} {count : Nat}
      {r c p o : List String} {rs : List (List String)} {evs : List Event}
      (hp : projections r = some (c, p, o)) (hlt : count + 1 < cap)
      (h : OkRun cap (customers ++ [c]) (products ++ [p]) (orders ++ [o]) (count + 1) rs evs) :
    OkRun cap customers products orders count (r :: rs) (.read (.record r) :: evs)
  | flush {customers products orders : List (List String)} {count : Nat}
      {r c p o : List String} {rs : List (List String)} {evs : List Event}
      (hp : projections r = some (c, p, o)) (hge : cap ≤ count + 1)
      (h : OkRun cap [] [] [] 0 rs evs) :
    OkRun cap customers products orders count (r :: rs)
      (.read (.record r) ::
        batchEvents (customers ++ [c]) (products ++ [p]) (orders ++ [o]) ++ evs)

/-- The sizes of the batches a source of `n` rows is cut into under the cap
`cap`: full batches, then the remainder if there is one. -/
def batchSizes (cap n : Nat) : List Nat :=
  List.replicate (n / cap) cap ++ (if n % cap = 0 then [] else [n % cap])

/-- The row of `table` built from a record by the loop body. -/
def rowOf : Table → List String → Option (List String)
  | .customers => customerRow
  | .products => productRow
  | .orders => orderRow

/-- The component for `table` of a triple ordered customers, products,
orders: the buffer of `table` among the three buffers of a batch, the row of
`table` among the three rows of a record. -/
def bufferOf {α : Type} (table : Table) (b : α × α × α) : α :=
  match table with
  | .customers => b.1
  | .products => b.2.1
  | .orders => b.2.2

/-- The three buffers hold, position by position, the three rows built from
one record each, and `count` is their common length. -/
def Buffered (customers products orders : List (List String)) (count : Nat) : Prop :=
  ∃ ts : List (List String × List String × List String),
    (∀ t ∈ ts, ∃ r, projections r = some t) ∧
    customers = ts.map (fun t => t.1) ∧ products = ts.map (fun t => t.2.1) ∧
    orders = ts.map (fun t => t.2.2) ∧ count = ts.length

/-- The store with `customers`, `products` and `orders` upserted into their
tables. -/
def Store.written (s : Store) (customers products orders : List (List String)) : Store :=
  { customers := upsertRows s.customers customers
    products := upsertRows s.products products
    orders := upsertRows s.orders orders }

/-- Every order row of the store refers to a customer row and a product row of
the store. -/
def RefClosed (s : Store) : Prop :=
  ∀ k v, s.orders k = some v →
    ∃ cust prod fields, v = cust :: prod :: fields ∧
      (s.customers cust).isSome ∧ (s.products prod).isSome

/-- The loop of `RefreshData` as a relation between its state, the operations
it performs and its outcome, one rule per path through the loop body. -/
inductive LoopRun (cap : Nat) : List Line → Nat → Tx → List (List String) →
    List (List String) → List (List String) → Nat → Nat → List Event → Outcome → Prop where
  | stop {fpr : Nat} {tx : Tx} {customers products orders : List (List String)}
      {count batchNum : Nat} {evs : List Event} {out : Outcome}
      (hf : finish tx customers products orders count = (evs, out)) :
    LoopRun cap [] fpr tx customers products orders count batchNum (.read .eof :: evs) out
  | readErr {line : Line} {rest : List Line} {fpr fpr1 : Nat} {tx : Tx}
      {customers products orders : List (List String)} {count batchNum : Nat} {cause : String}
      (hread : readRecord fpr line = (.error cause, fpr1)) :
    LoopRun cap (line :: rest) fpr tx customers products orders count batchNum
      [.read (.err cause), .rollback] (.error ("error reading CSV: " ++ cause))
  | indexPanic {line : Line} {rest : List Line} {fpr fpr1 : Nat} {tx : Tx}
      {customers products orders : List (List String)} {count batchNum : Nat}
      {r : List String}
      (hread : readRecord fpr line = (.ok r, fpr1)) (hp : projections r = none) :
    LoopRun cap (line :: rest) fpr tx customers products orders count batchNum
      [.read (.record r)] .panic
  | flushErr {line : Line} {rest : List Line} {fpr fpr1 : Nat} {tx tx1 : Tx}
      {customers products orders : List (List String)} {count batchNum : Nat}
      {r c p o : List String} {bevs : List Event} {err : String}
      (hread : readRecord fpr line = (.ok r, fpr1)) (hp : projections r = some (c, p, o))
      (hge : cap ≤ count + 1)
      (hb : executeBatch tx (customers ++ [c]) (products ++ [p]) (orders ++ [o])
        = (bevs, some err, tx1)) :
    LoopRun cap (line :: rest) fpr tx customers products orders count batchNum
      (.read (.record r) ::
        .batch (customers ++ [c]) (products ++ [p]) (orders ++ [o]) :: bevs ++ [.rollback])
      (.error ("error in batch " ++ toString (batchNum + 1) ++ ": " ++ err))
  | flushOk {line : Line} {rest : List Line} {fpr fpr1 : Nat} {tx tx1 : Tx}
      {customers products orders : List (List String)} {count batchNum : Nat}
      {r c p o : List String} {bevs more : List Event} {out : Outcome}
      (hread : readRecord fpr line = (.ok r, fpr1)) (hp : projections r = some (c, p, o))
      (hge : cap ≤ count + 1)
      (hb : executeBatch tx (customers ++ [c]) (products ++ [p]) (orders ++ [o])
        = (bevs, none, tx1))
      (h : LoopRun cap rest fpr1 tx1 [] [] [] 0 (batchNum + 1) more out) :
    LoopRun cap (line :: rest) fpr tx customers products orders count batchNum
      (.read (.record r) ::
        .batch (customers ++ [c]) (products ++ [p]) (orders ++ [o]) :: bevs ++ more) out
  | keep {line : Line} {rest : List Line} {fpr fpr1 : Nat} {tx : Tx}
      {customers products orders : List (List String)} {count batchNum : Nat}
      {r c p o : List String} {more : List Event} {out : Outcome}
      (hread : readRecord fpr line = (.ok r, fpr1)) (hp : projections r = some (c, p, o))
      (hlt : count + 1 < cap)
      (h : LoopRun cap rest fpr1 tx (customers ++ [c]) (products ++ [p]) (orders ++ [o])
        (count + 1) batchNum more out) :
    LoopRun cap (line :: rest) fpr tx customers products orders count batchNum
      (.read (.record r) :: more) out

/-- The error `msg` returned by `RefreshData` is the one built from the failed
operation `e`. -/
def reported (e : Event) (msg : String) : Prop :=
  match e with
  | .read (.err cause) => msg = "error reading CSV: " ++ cause
  | .exec table _ _ (some cause) =>
    (∃ n : Nat, msg = "error in batch " ++ toString n ++ ": " ++ insertError table cause) ∨
    msg = "error in final batch: " ++ insertError table cause
  | .commit (some cause) => msg = "error committing transaction: " ++ cause
  | _ => False

/-- An operation before the failure of a run: it did not fail, and it is
neither a commit nor a rollback. -/
def quiet (e : Event) : Prop :=
  failureCause e = none ∧ e ≠ .rollback ∧ ∀ err, e ≠ .commit err

/-- Every statement on `orders` in `evs` comes right after the call of
`executeBatch` it belongs to and that call's successful statements on
`customers` and on `products`; the three statements carry the rows of the
three buffers of the call, and each order row names, in its 2nd and 3rd
field, the identifier of a row of the customers statement and of a row of the
products statement. -/
def RefOrdered (evs : List Event) : Prop :=
  ∀ pre post groups args res, evs = pre ++ .exec .orders groups args res :: post →
    ∃ pre1 c p o, pre = pre1 ++ [.batch c p o,
        .exec .customers c.length (flattenVals c) none,
        .exec .products p.length (flattenVals p) none] ∧
      groups = o.length ∧ args = flattenVals o ∧
      stmtRows .customers c.length (flattenVals c) = c ∧
      stmtRows .products p.length (flattenVals p) = p ∧
      stmtRows .orders groups args = o ∧
      ∀ row ∈ o, ∃ id cust prod fields, row = id :: cust :: prod :: fields ∧
        (∃ cr ∈ c, cr.head? = some cust) ∧ (∃ pr ∈ p, pr.head? = some prod)

/-! ## Sample inputs -/

/-- A well-formed record of 15 fields, both monetary fields prefixed. -/
def sampleRecord : List String :=
  ["O1", "P1", "C1", "Pen", "Office", "East", "2024-01-01", "2", "$9.50", "0.1", "$2.00",
   "card", "Ann", "ann@example.com", "1 Main St"]

/-- A header of 15 column names. -/
def sampleHeader : List String :=
  ["Order ID", "Product ID", "Customer ID", "Product Name", "Category", "Region",
   "Date of Sale", "Quantity Sold", "Unit Price", "Discount", "Shipping Cost",
   "Payment Method", "Customer Name", "Customer Email", "Customer Address"]

/-- A transaction in which no operation fails. -/
def quietTx : Tx :=
  { execErr := fun _ => none, commitErr := none }

/-- A source of `n` well-formed data rows on a store that fails nothing. -/
def envRows (n : Nat) : Env :=
  { openErr := none
    lines := .fields sampleHeader :: (List.replicate n sampleRecord).map .fields
    beginErr := none
    tx := quietTx }

/-- 2,500 data rows of which record 1,200 has the wrong field count. -/
def envMalformed : Env :=
  { openErr := none
    lines := .fields sampleHeader :: ((List.replicate 1199 sampleRecord).map .fields ++
      .fields ["O2", "P2", "C2"] :: (List.replicate 1300 sampleRecord).map .fields)
    beginErr := none
    tx := quietTx }

/-- A file that cannot be opened. -/
def envNoFile : Env :=
  { openErr := some "open ./data/data.csv: no such file or directory"
    lines := []
    beginErr := none
    tx := quietTx }

/-- An empty file: the header cannot be read. -/
def envEmptyFile : Env :=
  { openErr := none, lines := [], beginErr := none, tx := quietTx }

/-- A file whose header and only data row have three fields. -/
def envThreeColumns : Env :=
  { openErr := none
    lines := [.fields ["id", "name", "price"], .fields ["1", "pen", "$2"]]
    beginErr := none
    tx := quietTx }

/-- A record whose unit price carries two "$" signs. -/
def doubleDollarRecord : List String :=
  ["O1", "P1", "C1", "Pen", "Office", "East", "2024-01-01", "2", "$$9.50", "0.1", "$2.00",
   "card", "Ann", "ann@example.com", "1 Main St"]

/-- Two well-formed data rows on a store whose `Commit` fails. -/
def envCommitFails : Env :=
  { openErr := none
    lines := .fields sampleHeader :: (List.replicate 2 sampleRecord).map .fields
    beginErr := none
    tx := { execErr := fun _ => none, commitErr := some "connection lost" } }

/-- Two well-formed data rows on a store whose second statement, the upsert
on products of the final batch, fails. -/
def envStatementFails : Env :=
  { openErr := none
    lines := .fields sampleHeader :: (List.replicate 2 sampleRecord).map .fields
    beginErr := none
    tx := { execErr := fun k => if k = 1 then some "deadlock" else none, commitErr := none } }

/-- The store with no rows. -/
def emptyStore : Store :=
  { customers := fun _ => none, products := fun _ => none, orders := fun _ => none }

/-! ## Strings: `TrimPrefix` with the prefix "$" -/

theorem hasPrefix_dollar (s : String) :
    HasPrefix s "$" = true ↔ s.data.head? = some '$' := by
  unfold HasPrefix
  rcases h : s.data with _ | ⟨c, cs⟩
  · decide
  · have : ("$" : String).data = ['$'] := rfl
    simp [this, List.isPrefixOf]
    exact eq_comm

theorem trimPrefix_dollar_cons (cs : List Char) :
    TrimPrefix ⟨'$' :: cs⟩ "$" = ⟨cs⟩ := by
  have h1 : ("$" : String).data = ['$'] := rfl
  simp [TrimPrefix, HasPrefix, h1, List.isPrefixOf]

theorem trimPrefix_dollar_other (s : String) (h : s.data.head? ≠ some '$') :
    TrimPrefix s "$" = s := by
  have h2 : HasPrefix s "$" = false := by
    rcases hb : HasPrefix s "$" with _ | _
    · rfl
    · exact absurd ((hasPrefix_dollar s).1 hb) h
  simp [TrimPrefix, h2]

theorem hasPrefix_trimPrefix_dollar (s : String) :
    HasPrefix (TrimPrefix s "$") "$" = true ↔ HasPrefix s "$$" = true := by
  have h1 : ("$" : String).data = ['$'] := rfl
  have h2 : ("$$" : String).data = ['$', '$'] := rfl
  rcases s with ⟨cs⟩
  rcases cs with _ | ⟨c, cs⟩
  · simp [TrimPrefix, HasPrefix, h1, h2, List.isPrefixOf]
  · by_cases hc : c = '$'
    · subst hc
      rw [trimPrefix_dollar_cons]
      rcases cs with _ | ⟨d, ds⟩ <;> simp [HasPrefix, h1, h2, List.isPrefixOf]
    · have : TrimPrefix ⟨c :: cs⟩ "$" = ⟨c :: cs⟩ :=
        trimPrefix_dollar_other _ (by simp [hc])
      rw [this]
      simp [HasPrefix, h1, h2, List.isPrefixOf, hc]
      intro h
      exact absurd h.symm hc

/-! ## The projections of a 15-field record -/

theorem projections_fifteen (a0 a1 a2 a3 a4 a5 a6 a7 a8 a9 a10 a11 a12 a13 a14 : String) :
    projections [a0, a1, a2, a3, a4, a5, a6, a7, a8, a9, a10, a11, a12, a13, a14] =
      some ([a2, a12, a13, a14], [a1, a3, a4],
        [a0, a2, a1, a5, a6, a7, TrimPrefix a8 "$", a9, TrimPrefix a10 "$", a11]) := rfl

theorem length_fifteen {r : List String} (h : r.length = 15) :
    ∃ a0 a1 a2 a3 a4 a5 a6 a7 a8 a9 a10 a11 a12 a13 a14,
      r = [a0, a1, a2, a3, a4, a5, a6, a7, a8, a9, a10, a11, a12, a13, a14] := by
  match r, h with
  | [a0, a1, a2, a3, a4, a5, a6, a7, a8, a9, a10, a11, a12, a13, a14], _ =>
    exact ⟨a0, a1, a2, a3, a4, a5, a6, a7, a8, a9, a10, a11, a12, a13, a14, rfl⟩


/-! ## `executeBatch` -/

theorem flattenVals_eq (rows : List (List String)) : flattenVals rows = rows.flatten := by
  have h : ∀ (acc : List String), rows.foldl (fun vals row => vals ++ row) acc
      = acc ++ rows.flatten := by
    induction rows with
    | nil => intro acc; simp
    | cons r rs ih => intro acc; simp [ih]
  simpa using h []

/-- The four ways a call of `executeBatch` can go. -/
theorem executeBatch_cases (tx : Tx) (customers products orders : List (List String)) :
    (∃ cause, tx.execErr 0 = some cause ∧
      (executeBatch tx customers products orders).1 =
        [.exec .customers customers.length (flattenVals customers) (some cause)] ∧
      (executeBatch tx customers products orders).2.1 =
        some ("error batch inserting customers: " ++ cause)) ∨
    (∃ cause, tx.execErr 0 = none ∧ tx.execErr 1 = some cause ∧
      (executeBatch tx customers products orders).1 =
        [.exec .customers customers.length (flattenVals customers) none,
         .exec .products products.length (flattenVals products) (some cause)] ∧
      (executeBatch tx customers products orders).2.1 =
        some ("error batch inserting products: " ++ cause)) ∨
    (∃ cause, tx.execErr 0 = none ∧ tx.execErr 1 = none ∧ tx.execErr 2 = some cause ∧
      (executeBatch tx customers products orders).1 =
        [.exec .customers customers.length (flattenVals customers) none,
         .exec .products products.length (flattenVals products) none,
         .exec .orders orders.length (flattenVals orders) (some cause)] ∧
      (executeBatch tx customers products orders).2.1 =
        some ("error batch inserting orders: " ++ cause)) ∨
    (tx.execErr 0 = none ∧ tx.execErr 1 = none ∧ tx.execErr 2 = none ∧
      (executeBatch tx customers products orders).1 =
        [.exec .customers customers.length (flattenVals customers) none,
         .exec .products products.length (flattenVals products) none,
         .exec .orders orders.length (flattenVals orders) none] ∧
      (executeBatch tx customers products orders).2.1 = none ∧
      (executeBatch tx customers products orders).2.2.commitErr = tx.commitErr ∧
      ∀ k, (executeBatch tx customers products orders).2.2.execErr k = tx.execErr (k + 3)) := by
  rcases h0 : tx.execErr 0 with _ | c0
  · rcases h1 : tx.execErr 1 with _ | c1
    · rcases h2 : tx.execErr 2 with _ | c2
      · right; right; right
        simp [executeBatch, Tx.Exec, h0, h1, h2]
      · right; right; left
        exact ⟨c2, by simp [executeBatch, Tx.Exec, h0, h1, h2]⟩
    · right; left
      exact ⟨c1, by simp [executeBatch, Tx.Exec, h0, h1]⟩
  · left
    exact ⟨c0, by simp [executeBatch, Tx.Exec, h0]⟩

theorem executeBatch_ok {tx : Tx} {customers products orders : List (List String)}
    {evs : List Event} {tx1 : Tx}
    (h : executeBatch tx customers products orders = (evs, none, tx1)) :
    .batch customers products orders :: evs = batchEvents customers products orders := by
  have h1 : (executeBatch tx customers products orders).1 = evs := by rw [h]
  have h2 : (executeBatch tx customers products orders).2.1 = none := by rw [h]
  rcases executeBatch_cases tx customers products orders with
    ⟨c, _, _, e⟩ | ⟨c, _, _, _, e⟩ | ⟨c, _, _, _, _, e⟩ | ⟨_, _, _, e, _⟩
  · rw [h2] at e; cases e
  · rw [h2] at e; cases e
  · rw [h2] at e; cases e
  · rw [← h1, e]; rfl

theorem executeBatch_quiet {tx : Tx} (customers products orders : List (List String))
    (hexec : ∀ k, tx.execErr k = none) :
    ∃ tx1, executeBatch tx customers products orders =
        ((batchEvents customers products orders).tail, none, tx1) ∧
      (∀ k, tx1.execErr k = none) ∧ tx1.commitErr = tx.commitErr := by
  refine ⟨(executeBatch tx customers products orders).2.2, ?_, ?_, ?_⟩
  · simp [executeBatch, Tx.Exec, hexec, batchEvents]
  · intro k; simp [executeBatch, Tx.Exec, hexec]
  · simp [executeBatch, Tx.Exec, hexec]

/-! ## Runs that return `nil` -/

theorem finish_ok {tx : Tx} {customers products orders : List (List String)} {count : Nat}
    {evs : List Event} (h : finish tx customers products orders count = (evs, .ok)) :
    (count = 0 ∧ evs = [.commit none]) ∨
    (0 < count ∧ evs = batchEvents customers products orders ++ [.commit none]) := by
  unfold finish at h
  split at h
  · rename_i hc
    right
    refine ⟨hc, ?_⟩
    split at h
    · simp at h
    · rename_i evs1 tx1 hb
      have hb1 := executeBatch_ok hb
      split at h
      · simp at h
      · simp only [Prod.mk.injEq, and_true] at h
        rw [← h, ← hb1]
  · rename_i hc
    left
    refine ⟨by omega, ?_⟩
    split at h
    · simp at h
    · simp only [Prod.mk.injEq, and_true] at h
      exact h.symm

theorem loop_nil (cap : Nat) (fpr : Nat) (tx : Tx) (customers products orders : List (List String))
    (count batchNum : Nat) :
    loop cap [] fpr tx customers products orders count batchNum =
      (.read .eof :: (finish tx customers products orders count).1,
        (finish tx customers products orders count).2) := by
  simp [loop]

/-- A run of the loop that returns `nil` read only decodable records, panicked
on none of them, and performed the operations described by `OkRun`. -/
theorem loop_ok (cap : Nat) : ∀ (lines : List Line) (fpr : Nat) (tx : Tx)
    (customers products orders : List (List String)) (count batchNum : Nat) (evs : List Event),
    loop cap lines fpr tx customers products orders count batchNum = (evs, .ok) →
    ∃ rs, lines = rs.map .fields ∧ OkRun cap customers products orders count rs evs := by
  intro lines
  induction lines with
  | nil =>
    intro fpr tx customers products orders count batchNum evs h
    rw [loop_nil] at h
    simp only [Prod.mk.injEq] at h
    obtain ⟨h1, h2⟩ := h
    have hf : finish tx customers products orders count =
        ((finish tx customers products orders count).1, .ok) := by rw [← h2]
    refine ⟨[], rfl, ?_⟩
    rcases finish_ok hf with ⟨hc, he⟩ | ⟨hc, he⟩
    · rw [← h1, he, hc]
      exact OkRun.eof _ _ _
    · rw [← h1, he]
      exact OkRun.final _ _ _ _ hc
  | cons line rest ih =>
    intro fpr tx customers products orders count batchNum evs h
    unfold loop at h
    split at h
    · simp at h
    · rename_i record fpr1 hread
      have hline : line = .fields record := by
        cases line with
        | bad cause => simp [readRecord] at hread
        | fields fs =>
          simp only [readRecord] at hread
          split at hread
          · split at hread
            · simp at hread
            · simp only [Prod.mk.injEq, Except.ok.injEq] at hread
              rw [hread.1]
          · simp only [Prod.mk.injEq, Except.ok.injEq] at hread
            rw [hread.1]
      split at h
      · simp at h
      · rename_i c p o hp
        simp only at h
        split at h
        · rename_i hge
          split at h
          · simp at h
          · rename_i evs1 tx1 hb
            have hb1 := executeBatch_ok hb
            simp only [Prod.mk.injEq] at h
            obtain ⟨h1, h2⟩ := h
            obtain ⟨rs, hrs, hrun⟩ := ih fpr1 tx1 [] [] [] 0 (batchNum + 1) _
              (Prod.ext rfl h2)
            refine ⟨record :: rs, by simp [hline, hrs], ?_⟩
            rw [← h1]
            have := @OkRun.flush cap customers products orders count record c p o rs
              _ hp hge hrun
            rw [← hb1] at this
            simpa using this
        · rename_i hlt
          simp only [Prod.mk.injEq] at h
          obtain ⟨h1, h2⟩ := h
          obtain ⟨rs, hrs, hrun⟩ := ih fpr1 tx _ _ _ _ batchNum _ (Prod.ext rfl h2)
          refine ⟨record :: rs, by simp [hline, hrs], ?_⟩
          rw [← h1]
          exact OkRun.keep hp (by omega) hrun

/-! ## One turn of the loop -/

theorem loop_cons_keep {cap : Nat} {line : Line} {rest : List Line} {fpr fpr1 : Nat} {tx : Tx}
    {customers products orders : List (List String)} {count batchNum : Nat}
    {r c p o : List String}
    (hread : readRecord fpr line = (.ok r, fpr1)) (hp : projections r = some (c, p, o))
    (hlt : count + 1 < cap) :
    loop cap (line :: rest) fpr tx customers products orders count batchNum =
      (.read (.record r) ::
        (loop cap rest fpr1 tx (customers ++ [c]) (products ++ [p]) (orders ++ [o])
          (count + 1) batchNum).1,
       (loop cap rest fpr1 tx (customers ++ [c]) (products ++ [p]) (orders ++ [o])
          (count + 1) batchNum).2) := by
  have hn : ¬ (count + 1 ≥ cap) := by omega
  rw [loop]
  simp [hread, hp, hn]

theorem loop_cons_flush {cap : Nat} {line : Line} {rest : List Line} {fpr fpr1 : Nat} {tx tx1 : Tx}
    {customers products orders : List (List String)} {count batchNum : Nat}
    {r c p o : List String} {evs : List Event}
    (hread : readRecord fpr line = (.ok r, fpr1)) (hp : projections r = some (c, p, o))
    (hge : cap ≤ count + 1)
    (hb : executeBatch tx (customers ++ [c]) (products ++ [p]) (orders ++ [o])
      = (evs, none, tx1)) :
    loop cap (line :: rest) fpr tx customers products orders count batchNum =
      (.read (.record r) ::
        .batch (customers ++ [c]) (products ++ [p]) (orders ++ [o]) :: evs ++
          (loop cap rest fpr1 tx1 [] [] [] 0 (batchNum + 1)).1,
       (loop cap rest fpr1 tx1 [] [] [] 0 (batchNum + 1)).2) := by
  have hn : count + 1 ≥ cap := hge
  rw [loop]
  simp [hread, hp, hn, hb]

theorem readRecord_fifteen {r : List String} (h : r.length = 15) :
    readRecord 15 (.fields r) = (.ok r, 15) := by
  simp [readRecord, h]

theorem projections_isSome {r : List String} (h : r.length = 15) :
    ∃ c p o, projections r = some (c, p, o) := by
  obtain ⟨a0, a1, a2, a3, a4, a5, a6, a7, a8, a9, a10, a11, a12, a13, a14, rfl⟩ :=
    length_fifteen h
  exact ⟨_, _, _, projections_fifteen _ _ _ _ _ _ _ _ _ _ _ _ _ _ _⟩

theorem finish_quiet {tx : Tx} (customers products orders : List (List String)) (count : Nat)
    (hexec : ∀ k, tx.execErr k = none) (hcommit : tx.commitErr = none) :
    (finish tx customers products orders count).2 = .ok := by
  unfold finish
  split
  · obtain ⟨tx1, hb, _, hc⟩ := executeBatch_quiet customers products orders hexec
    rw [hb]
    simp [hc, hcommit]
  · simp [hcommit]

/-- On a source of 15-field records read with the field count 15, and a store
that fails no operation, the loop returns `nil`. -/
theorem loop_quiet (cap : Nat) : ∀ (rs : List (List String)) (tx : Tx)
    (customers products orders : List (List String)) (count batchNum : Nat),
    (∀ r ∈ rs, r.length = 15) → (∀ k, tx.execErr k = none) → tx.commitErr = none →
    (loop cap (rs.map .fields) 15 tx customers products orders count batchNum).2 = .ok := by
  intro rs
  induction rs with
  | nil =>
    intro tx customers products orders count batchNum _ hexec hcommit
    simp only [List.map_nil, loop_nil]
    exact finish_quiet _ _ _ _ hexec hcommit
  | cons r rs ih =>
    intro tx customers products orders count batchNum hrs hexec hcommit
    have hr : r.length = 15 := hrs r (List.mem_cons_self _ _)
    have hrs1 : ∀ x ∈ rs, x.length = 15 := fun x hx => hrs x (List.mem_cons_of_mem _ hx)
    obtain ⟨c, p, o, hp⟩ := projections_isSome hr
    simp only [List.map_cons]
    by_cases hge : cap ≤ count + 1
    · obtain ⟨tx1, hb, hexec1, hc1⟩ :=
        executeBatch_quiet (customers ++ [c]) (products ++ [p]) (orders ++ [o]) hexec
      rw [loop_cons_flush (readRecord_fifteen hr) hp hge hb]
      exact ih tx1 _ _ _ _ _ hrs1 hexec1 (hc1.trans hcommit)
    · rw [loop_cons_keep (readRecord_fifteen hr) hp (by omega)]
      exact ih tx _ _ _ _ _ hrs1 hexec hcommit

/-! ## The buffers -/

theorem projections_rows {r c p o : List String} (h : projections r = some (c, p, o)) :
    customerRow r = some c ∧ productRow r = some p ∧ orderRow r = some o := by
  unfold projections at h
  rcases hc : customerRow r with _ | c1
  · simp [hc] at h
  · rcases hp : productRow r with _ | p1
    · simp [hc, hp] at h
    · rcases ho : orderRow r with _ | o1
      · simp [hc, hp, ho] at h
      · simp [hc, hp, ho] at h
        simp [h]

theorem projections_rowOf {r c p o : List String} (h : projections r = some (c, p, o))
    (table : Table) : rowOf table r = some (bufferOf table (c, p, o)) := by
  obtain ⟨h1, h2, h3⟩ := projections_rows h
  cases table <;> simp [rowOf, bufferOf, h1, h2, h3]

theorem Buffered.empty : Buffered [] [] [] 0 :=
  ⟨[], by simp, rfl, rfl, rfl, rfl⟩

theorem Buffered.snoc {customers products orders : List (List String)} {count : Nat}
    {r c p o : List String} (hb : Buffered customers products orders count)
    (hp : projections r = some (c, p, o)) :
    Buffered (customers ++ [c]) (products ++ [p]) (orders ++ [o]) (count + 1) := by
  obtain ⟨ts, h0, h1, h2, h3, h4⟩ := hb
  refine ⟨ts ++ [(c, p, o)], ?_, by simp [h1], by simp [h2], by simp [h3], by simp [h4]⟩
  intro t ht
  rcases List.mem_append.1 ht with ht | ht
  · exact h0 t ht
  · simp only [List.mem_singleton] at ht
    exact ⟨r, ht ▸ hp⟩

theorem Buffered.lengths {customers products orders : List (List String)} {count : Nat}
    (hb : Buffered customers products orders count) :
    customers.length = count ∧ products.length = count ∧ orders.length = count := by
  obtain ⟨ts, _, h1, h2, h3, h4⟩ := hb
  simp [h1, h2, h3, h4]

theorem Buffered.bufferOf_length {customers products orders : List (List String)} {count : Nat}
    (hb : Buffered customers products orders count) (table : Table) :
    (bufferOf table (customers, products, orders)).length = count := by
  obtain ⟨h1, h2, h3⟩ := hb.lengths
  cases table <;> simp [bufferOf, h1, h2, h3]

/-! ## Observers on the operations of a batch -/

theorem batchesOf_cons_read (res : ReadResult) (evs : List Event) :
    batchesOf (.read res :: evs) = batchesOf evs := by
  simp [batchesOf]

theorem batchesOf_append (xs ys : List Event) :
    batchesOf (xs ++ ys) = batchesOf xs ++ batchesOf ys := by
  simp [batchesOf]

theorem batchesOf_batchEvents (c p o : List (List String)) :
    batchesOf (batchEvents c p o) = [(c, p, o)] := by
  simp [batchesOf, batchEvents]

theorem argsOf_cons_read (table : Table) (res : ReadResult) (evs : List Event) :
    argsOf table (.read res :: evs) = argsOf table evs := by
  simp [argsOf]

theorem argsOf_append (table : Table) (xs ys : List Event) :
    argsOf table (xs ++ ys) = argsOf table xs ++ argsOf table ys := by
  simp [argsOf]

theorem argsOf_batchEvents (table : Table) (c p o : List (List String)) :
    argsOf table (batchEvents c p o) = [(bufferOf table (c, p, o)).flatten] := by
  cases table <;> simp [argsOf, batchEvents, bufferOf, flattenVals_eq]

theorem commitsOf_batchEvents (c p o : List (List String)) :
    commitsOf (batchEvents c p o) = [] := by
  simp [commitsOf, batchEvents]

/-! ## What a run that returns `nil` did -/

theorem batchSizes_add (cap n : Nat) (h : 0 < cap) :
    batchSizes cap (cap + n) = cap :: batchSizes cap n := by
  simp [batchSizes, Nat.add_div_left n h, Nat.add_mod_left, List.replicate_succ]

theorem batchSizes_small (cap n : Nat) (h0 : 0 < n) (h : n < cap) :
    batchSizes cap n = [n] := by
  have h1 : n / cap = 0 := Nat.div_eq_of_lt h
  have h2 : n % cap = n := Nat.mod_eq_of_lt h
  have h3 : n ≠ 0 := by omega
  simp [batchSizes, h1, h2, h3]

theorem batchSizes_zero (cap : Nat) : batchSizes cap 0 = [] := by
  simp [batchSizes]

/-- The batches of a successful run have the sizes `batchSizes`, in each of
the three buffers. -/
theorem OkRun.sizes {cap : Nat} {customers products orders : List (List String)} {count : Nat}
    {rs : List (List String)} {evs : List Event}
    (h : OkRun cap customers products orders count rs evs)
    (hb : Buffered customers products orders count) (hc : count < cap) :
    (batchesOf evs).map (fun b => (b.1.length, b.2.1.length, b.2.2.length)) =
      (batchSizes cap (count + rs.length)).map (fun n => (n, n, n)) := by
  induction h with
  | eof customers products orders =>
    simp [batchesOf, batchSizes_zero]
  | final customers products orders count h0 =>
    obtain ⟨h1, h2, h3⟩ := hb.lengths
    rw [List.cons_append, batchesOf_cons_read, batchesOf_append, batchesOf_batchEvents]
    simp [batchesOf, batchSizes_small cap count h0 hc, h1, h2, h3]
  | @keep customers products orders count r c p o rs evs hp hlt _ ih =>
    rw [batchesOf_cons_read, ih (hb.snoc hp) hlt]
    simp only [List.length_cons]
    rw [show count + 1 + rs.length = count + (rs.length + 1) by omega]
  | @flush customers products orders count r c p o rs evs hp hge _ ih =>
    obtain ⟨h1, h2, h3⟩ := (hb.snoc hp).lengths
    have hcap : count + 1 = cap := by omega
    rw [List.cons_append, batchesOf_cons_read, batchesOf_append, batchesOf_batchEvents]
    rw [List.map_append, ih Buffered.empty (by omega)]
    simp only [List.length_cons, List.map_cons, List.map_nil, List.singleton_append]
    rw [show count + (rs.length + 1) = cap + rs.length by omega, batchSizes_add cap _ (by omega)]
    simp [h1, h2, h3, hcap]

/-- The argument lists of the statements on one table, put end to end, are the
rows of the buffer followed by the rows of the records still to be read. -/
theorem OkRun.args {cap : Nat} {customers products orders : List (List String)} {count : Nat}
    {rs : List (List String)} {evs : List Event}
    (h : OkRun cap customers products orders count rs evs)
    (hb : Buffered customers products orders count) (table : Table) :
    (argsOf table evs).flatten =
      (bufferOf table (customers, products, orders) ++ rs.filterMap (rowOf table)).flatten := by
  induction h with
  | eof customers products orders =>
    have h0 := hb.bufferOf_length table
    have : bufferOf table (customers, products, orders) = [] := List.length_eq_zero.1 h0
    simp [argsOf, this]
  | final customers products orders count h0 =>
    rw [List.cons_append, argsOf_cons_read, argsOf_append, argsOf_batchEvents]
    simp [argsOf]
  | keep hp hlt _ ih =>
    rw [argsOf_cons_read, ih (hb.snoc hp)]
    rw [List.filterMap_cons, projections_rowOf hp table]
    cases table <;> simp [bufferOf]
  | flush hp hge _ ih =>
    rw [List.cons_append, argsOf_cons_read, argsOf_append, argsOf_batchEvents, List.flatten_append,
      ih Buffered.empty]
    rw [List.filterMap_cons, projections_rowOf hp table]
    cases table <;> simp [bufferOf]

/-- A successful run commits once and never rolls back. -/
theorem OkRun.commits {cap : Nat} {customers products orders : List (List String)} {count : Nat}
    {rs : List (List String)} {evs : List Event}
    (h : OkRun cap customers products orders count rs evs) :
    commitsOf evs = [none] ∧ Event.rollback ∉ evs := by
  induction h with
  | eof customers products orders => simp [commitsOf]
  | final customers products orders count h0 => simp [commitsOf, batchEvents]
  | keep hp hlt _ ih => simpa [commitsOf] using ih
  | flush hp hge _ ih =>
    obtain ⟨ih1, ih2⟩ := ih
    constructor
    · have : ∀ xs ys, commitsOf (xs ++ ys) = commitsOf xs ++ commitsOf ys := by
        intro xs ys; simp [commitsOf]
      have h2 : ∀ res xs, commitsOf (Event.read res :: xs) = commitsOf xs := by
        intro res xs; simp [commitsOf]
      rw [List.cons_append, h2, this, commitsOf_batchEvents, ih1]
      rfl
    · simp [batchEvents, ih2]

/-! ## The store model -/

theorem stmtRows_flatten (k : Nat) : ∀ (rows : List (List String)),
    (∀ row ∈ rows, row.length = k) →
    (List.range rows.length).map (fun i => (rows.flatten.drop (i * k)).take k) = rows := by
  intro rows
  induction rows with
  | nil => intro _; rfl
  | cons r rs ih =>
    intro h
    have hr : r.length = k := h r (List.mem_cons_self _ _)
    have hrs : ∀ row ∈ rs, row.length = k := fun row hx => h row (List.mem_cons_of_mem _ hx)
    rw [List.length_cons, List.range_succ_eq_map, List.map_cons, List.map_map]
    congr 1
    · simp only [Nat.zero_mul, List.drop_zero, List.flatten_cons]
      rw [← hr, List.take_left]
    · conv_rhs => rw [← ih hrs]
      apply List.map_congr_left
      intro i _
      simp only [Function.comp, List.flatten_cons, Nat.succ_eq_add_one]
      rw [show (i + 1) * k = r.length + i * k by rw [hr, Nat.succ_mul, Nat.add_comm]]
      rw [List.drop_append]

theorem stmtRows_flattenVals (table : Table) (rows : List (List String))
    (h : ∀ row ∈ rows, row.length = table.arity) :
    stmtRows table rows.length (flattenVals rows) = rows := by
  rw [flattenVals_eq]
  exact stmtRows_flatten table.arity rows h

theorem projections_arity {r c p o : List String} (h : projections r = some (c, p, o))
    (table : Table) : (bufferOf table (c, p, o)).length = table.arity := by
  obtain ⟨h1, h2, h3⟩ := projections_rows h
  cases table
  · simp only [customerRow, Option.bind_eq_some] at h1
    obtain ⟨_, _, _, _, _, _, _, _, h1⟩ := h1
    simp only [Option.some.injEq] at h1
    simp [bufferOf, ← h1, Table.arity]
  · simp only [productRow, Option.bind_eq_some] at h2
    obtain ⟨_, _, _, _, _, _, h2⟩ := h2
    simp only [Option.some.injEq] at h2
    simp [bufferOf, ← h2, Table.arity]
  · simp only [orderRow, Option.bind_eq_some] at h3
    obtain ⟨_, _, _, _, _, _, _, _, _, _, _, _, _, _, _, _, _, _, _, _, h3⟩ := h3
    simp only [Option.some.injEq] at h3
    simp [bufferOf, ← h3, Table.arity]

theorem Buffered.row_length {customers products orders : List (List String)} {count : Nat}
    (hb : Buffered customers products orders count) (table : Table) :
    ∀ row ∈ bufferOf table (customers, products, orders), row.length = table.arity := by
  obtain ⟨ts, h0, h1, h2, h3, _⟩ := hb
  intro row hrow
  have key : ∃ t ∈ ts, row = bufferOf table t := by
    cases table
    · simp only [bufferOf, h1, List.mem_map] at hrow
      obtain ⟨t, ht, e⟩ := hrow
      exact ⟨t, ht, e.symm⟩
    · simp only [bufferOf, h2, List.mem_map] at hrow
      obtain ⟨t, ht, e⟩ := hrow
      exact ⟨t, ht, e.symm⟩
    · simp only [bufferOf, h3, List.mem_map] at hrow
      obtain ⟨t, ht, e⟩ := hrow
      exact ⟨t, ht, e.symm⟩
  obtain ⟨⟨c, p, o⟩, ht, e⟩ := key
  obtain ⟨r, hr⟩ := h0 _ ht
  rw [e]
  exact projections_arity hr table

theorem upsertRows_append (m : TableMap) (xs ys : List (List String)) :
    upsertRows m (xs ++ ys) = upsertRows (upsertRows m xs) ys := by
  simp [upsertRows, List.foldl_append]

theorem Store.written_nil (s : Store) : s.written [] [] [] = s := by
  cases s; rfl

theorem Store.written_written (s : Store) (c p o c1 p1 o1 : List (List String)) :
    (s.written c p o).written c1 p1 o1 = s.written (c ++ c1) (p ++ p1) (o ++ o1) := by
  simp [Store.written, upsertRows_append]

theorem DB.run_append (db : DB) (xs ys : List Event) :
    DB.run db (xs ++ ys) = DB.run (DB.run db xs) ys := by
  simp [DB.run, List.foldl_append]

theorem DB.run_cons (db : DB) (e : Event) (evs : List Event) :
    DB.run db (e :: evs) = DB.run (db.step e) evs := rfl

theorem DB.run_batchEvents (s p : Store) {customers products orders : List (List String)}
    {count : Nat} (hb : Buffered customers products orders count) :
    DB.run { committed := s, pending := some p } (batchEvents customers products orders) =
      { committed := s, pending := some (p.written customers products orders) } := by
  have h1 := stmtRows_flattenVals .customers customers (hb.row_length .customers)
  have h2 := stmtRows_flattenVals .products products (hb.row_length .products)
  have h3 := stmtRows_flattenVals .orders orders (hb.row_length .orders)
  simp [batchEvents, DB.run, DB.step, h1, h2, h3, Store.upsert, Store.written]

/-- The database after a successful run of the loop inside an open
transaction: every row built from the source was upserted, in source order,
and the result was committed. -/
theorem OkRun.store {cap : Nat} {customers products orders : List (List String)} {count : Nat}
    {rs : List (List String)} {evs : List Event}
    (h : OkRun cap customers products orders count rs evs)
    (hb : Buffered customers products orders count) (s p : Store) :
    DB.run { committed := s, pending := some p } evs =
      { committed := p.written (customers ++ rs.filterMap customerRow)
          (products ++ rs.filterMap productRow) (orders ++ rs.filterMap orderRow),
        pending := none } := by
  induction h generalizing p with
  | eof customers products orders =>
    obtain ⟨h1, h2, h3⟩ := hb.lengths
    rw [List.length_eq_zero.1 h1, List.length_eq_zero.1 h2, List.length_eq_zero.1 h3]
    simp [DB.run, DB.step, Store.written_nil]
  | final customers products orders count h0 =>
    rw [List.cons_append, DB.run_cons, DB.run_append]
    simp only [DB.step]
    rw [DB.run_batchEvents s p hb]
    simp [DB.run, DB.step]
  | @keep customers products orders count r c p1 o rs evs hp hlt _ ih =>
    obtain ⟨h1, h2, h3⟩ := projections_rows hp
    rw [DB.run_cons]
    simp only [DB.step]
    rw [ih (hb.snoc hp) p]
    simp [List.filterMap_cons, h1, h2, h3]
  | @flush customers products orders count r c p1 o rs evs hp hge _ ih =>
    obtain ⟨h1, h2, h3⟩ := projections_rows hp
    rw [List.cons_append, DB.run_cons, DB.run_append]
    simp only [DB.step]
    rw [DB.run_batchEvents s p (hb.snoc hp), ih Buffered.empty, Store.written_written]
    simp [List.filterMap_cons, h1, h2, h3]

/-! ## Every run of the loop -/

theorem loop_run (cap : Nat) : ∀ (lines : List Line) (fpr : Nat) (tx : Tx)
    (customers products orders : List (List String)) (count batchNum : Nat),
    LoopRun cap lines fpr tx customers products orders count batchNum
      (loop cap lines fpr tx customers products orders count batchNum).1
      (loop cap lines fpr tx customers products orders count batchNum).2 := by
  intro lines
  induction lines with
  | nil =>
    intro fpr tx customers products orders count batchNum
    rw [loop_nil]
    exact LoopRun.stop rfl
  | cons line rest ih =>
    intro fpr tx customers products orders count batchNum
    rcases hread : readRecord fpr line with ⟨res, fpr1⟩
    cases res with
    | error cause =>
      have : loop cap (line :: rest) fpr tx customers products orders count batchNum =
          ([.read (.err cause), .rollback], .error ("error reading CSV: " ++ cause)) := by
        rw [loop]; simp [hread]
      rw [this]
      exact LoopRun.readErr hread
    | ok r =>
      rcases hp : projections r with _ | ⟨c, p, o⟩
      · have : loop cap (line :: rest) fpr tx customers products orders count batchNum =
            ([.read (.record r)], .panic) := by
          rw [loop]; simp [hread, hp]
        rw [this]
        exact LoopRun.indexPanic hread hp
      · by_cases hge : cap ≤ count + 1
        · rcases hb : executeBatch tx (customers ++ [c]) (products ++ [p]) (orders ++ [o])
            with ⟨bevs, res, tx1⟩
          cases res with
          | some err =>
            have : loop cap (line :: rest) fpr tx customers products orders count batchNum =
                (.read (.record r) ::
                  .batch (customers ++ [c]) (products ++ [p]) (orders ++ [o]) ::
                    bevs ++ [.rollback],
                 .error ("error in batch " ++ toString (batchNum + 1) ++ ": " ++ err)) := by
              have hn : count + 1 ≥ cap := hge
              rw [loop]; simp [hread, hp, hn, hb]
            rw [this]
            exact LoopRun.flushErr hread hp hge hb
          | none =>
            rw [loop_cons_flush hread hp hge hb]
            exact LoopRun.flushOk hread hp hge hb (ih _ _ _ _ _ _ _)
        · rw [loop_cons_keep hread hp (by omega)]
          exact LoopRun.keep hread hp (by omega) (ih _ _ _ _ _ _ _)

theorem executeBatch_events (tx : Tx) (customers products orders : List (List String)) :
    ∀ e ∈ (executeBatch tx customers products orders).1, ∃ t g a r, e = .exec t g a r := by
  intro e he
  rcases executeBatch_cases tx customers products orders with
    ⟨c, _, h, _⟩ | ⟨c, _, _, h, _⟩ | ⟨c, _, _, _, h, _⟩ | ⟨_, _, _, h, _⟩ <;>
  · rw [h] at he
    simp only [List.mem_cons, List.mem_singleton, List.not_mem_nil, or_false] at he
    rcases he with rfl | rfl | rfl <;> exact ⟨_, _, _, _, rfl⟩

theorem finish_cases (tx : Tx) (customers products orders : List (List String)) (count : Nat) :
    (count = 0 ∧ finish tx customers products orders count = ([.commit none], .ok)) ∨
    (count = 0 ∧ ∃ cause, finish tx customers products orders count =
      ([.commit (some cause), .rollback],
        .error ("error committing transaction: " ++ cause))) ∨
    (0 < count ∧ ∃ err, (executeBatch tx customers products orders).2.1 = some err ∧
      finish tx customers products orders count =
        (.batch customers products orders ::
          (executeBatch tx customers products orders).1 ++ [.rollback],
         .error ("error in final batch: " ++ err))) ∨
    (0 < count ∧ (executeBatch tx customers products orders).2.1 = none ∧
      finish tx customers products orders count =
        (.batch customers products orders ::
          (executeBatch tx customers products orders).1 ++ [.commit none], .ok)) ∨
    (0 < count ∧ (executeBatch tx customers products orders).2.1 = none ∧ ∃ cause,
      finish tx customers products orders count =
        (.batch customers products orders ::
          (executeBatch tx customers products orders).1 ++ [.commit (some cause), .rollback],
         .error ("error committing transaction: " ++ cause))) := by
  by_cases hc : 0 < count
  · right; right
    rcases hb : executeBatch tx customers products orders with ⟨bevs, res, tx1⟩
    cases res with
    | some err =>
      left
      exact ⟨hc, err, rfl, by simp [finish, hc, hb]⟩
    | none =>
      right
      rcases hcm : tx1.commitErr with _ | cause
      · left
        exact ⟨hc, rfl, by simp [finish, hc, hb, hcm]⟩
      · right
        exact ⟨hc, rfl, cause, by simp [finish, hc, hb, hcm]⟩
  · have h0 : count = 0 := by omega
    rcases hcm : tx.commitErr with _ | cause
    · left
      exact ⟨h0, by simp [finish, h0, hcm]⟩
    · right; left
      exact ⟨h0, cause, by simp [finish, h0, hcm]⟩

/-- The operations of the code after the loop: the call of `executeBatch`,
statements, the commit, the rollback. -/
theorem finish_events (tx : Tx) (customers products orders : List (List String))
    (count : Nat) :
    ∀ e ∈ (finish tx customers products orders count).1,
      (∃ c p o, e = .batch c p o) ∨ (∃ t g a r, e = .exec t g a r) ∨
      (∃ r, e = .commit r) ∨ e = .rollback := by
  intro e he
  have hex := executeBatch_events tx customers products orders
  rcases finish_cases tx customers products orders count with
    ⟨_, h⟩ | ⟨_, c, h⟩ | ⟨_, err, _, h⟩ | ⟨_, _, h⟩ | ⟨_, _, c, h⟩ <;> rw [h] at he <;>
    simp only [List.cons_append, List.mem_cons, List.mem_append, List.mem_singleton,
      List.not_mem_nil, or_false] at he
  · subst he; simp
  · rcases he with rfl | rfl <;> simp
  · rcases he with rfl | he | rfl
    · simp
    · exact Or.inr (Or.inl (hex e he))
    · simp
  · rcases he with rfl | he | rfl
    · simp
    · exact Or.inr (Or.inl (hex e he))
    · simp
  · rcases he with rfl | he | rfl | rfl
    · simp
    · exact Or.inr (Or.inl (hex e he))
    · simp
    · simp

/-! ### The transaction is begun once, before the loop -/

theorem finish_no_begin (tx : Tx) (customers products orders : List (List String))
    (count : Nat) :
    ∀ e ∈ (finish tx customers products orders count).1,
      (∀ err, e ≠ .txBegin err) ∧ (∀ err, e ≠ .openFile err) := by
  intro e he
  rcases finish_events tx customers products orders count e he with
    ⟨c, p, o, rfl⟩ | ⟨t, g, a, r, rfl⟩ | ⟨r, rfl⟩ | rfl <;> simp

theorem LoopRun.no_begin {cap : Nat} {lines : List Line} {fpr : Nat} {tx : Tx}
    {customers products orders : List (List String)} {count batchNum : Nat}
    {evs : List Event} {out : Outcome}
    (h : LoopRun cap lines fpr tx customers products orders count batchNum evs out) :
    ∀ e ∈ evs, (∀ err, e ≠ .txBegin err) ∧ (∀ err, e ≠ .openFile err) := by
  induction h with
  | @stop fpr tx customers products orders count batchNum evs out hf =>
    intro e he
    rcases List.mem_cons.1 he with rfl | he
    · simp
    · have := finish_no_begin tx customers products orders count
      rw [hf] at this
      exact this e he
  | readErr hread =>
    intro e he
    simp only [List.mem_cons, List.mem_singleton, List.not_mem_nil, or_false] at he
    rcases he with rfl | rfl <;> simp
  | indexPanic hread hp =>
    intro e he
    simp only [List.mem_singleton] at he
    subst he; simp
  | @flushErr line rest fpr fpr1 tx tx1 customers products orders count batchNum r c p o bevs
      err hread hp hge hb =>
    intro e he
    have hex := executeBatch_events tx (customers ++ [c]) (products ++ [p]) (orders ++ [o])
    rw [hb] at hex
    simp only [List.cons_append, List.mem_cons, List.mem_append, List.mem_singleton,
      List.not_mem_nil, or_false] at he
    rcases he with rfl | rfl | he | rfl
    · simp
    · simp
    · obtain ⟨t, g, a, r, rfl⟩ := hex e he; simp
    · simp
  | @flushOk line rest fpr fpr1 tx tx1 customers products orders count batchNum r c p o bevs
      more out hread hp hge hb _ ih =>
    intro e he
    have hex := executeBatch_events tx (customers ++ [c]) (products ++ [p]) (orders ++ [o])
    rw [hb] at hex
    simp only [List.cons_append, List.mem_cons, List.mem_append] at he
    rcases he with rfl | rfl | he | he
    · simp
    · simp
    · obtain ⟨t, g, a, r, rfl⟩ := hex e he; simp
    · exact ih e he
  | keep hread hp hlt _ ih =>
    intro e he
    rcases List.mem_cons.1 he with rfl | he
    · simp
    · exact ih e he

/-! ### Only records with the field count of the header are normalised -/

theorem readRecord_pos {fpr fpr1 : Nat} {line : Line} {r : List String} (hpos : 0 < fpr)
    (h : readRecord fpr line = (.ok r, fpr1)) : fpr1 = fpr ∧ r.length = fpr := by
  cases line with
  | bad cause => simp [readRecord] at h
  | fields fs =>
    simp only [readRecord, hpos, if_true] at h
    by_cases hl : fs.length = fpr
    · simp only [hl, ne_eq, not_true_eq_false, if_false, Prod.mk.injEq,
        Except.ok.injEq] at h
      exact ⟨h.2.symm, by rw [← h.1, hl]⟩
    · simp [hl] at h

theorem readRecord_mismatch {fpr : Nat} {fs : List String} (hpos : 0 < fpr)
    (h : fs.length ≠ fpr) : readRecord fpr (.fields fs) = (.error ErrFieldCount, fpr) := by
  simp [readRecord, hpos, h]

theorem projections_of_le {r : List String} (h : 15 ≤ r.length) :
    ∃ c p o, projections r = some (c, p, o) := by
  match r, h with
  | a0 :: a1 :: a2 :: a3 :: a4 :: a5 :: a6 :: a7 :: a8 :: a9 :: a10 :: a11 :: a12 :: a13 ::
      a14 :: t, _ =>
    exact ⟨[a2, a12, a13, a14], [a1, a3, a4],
      [a0, a2, a1, a5, a6, a7, TrimPrefix a8 "$", a9, TrimPrefix a10 "$", a11], rfl⟩

theorem LoopRun.record_length {cap : Nat} {lines : List Line} {fpr : Nat} {tx : Tx}
    {customers products orders : List (List String)} {count batchNum : Nat}
    {evs : List Event} {out : Outcome}
    (h : LoopRun cap lines fpr tx customers products orders count batchNum evs out)
    (hpos : 0 < fpr) : ∀ r, Event.read (.record r) ∈ evs → r.length = fpr := by
  induction h with
  | @stop fpr tx customers products orders count batchNum evs out hf =>
    intro r hr
    have hev := finish_events tx customers products orders count
    rw [hf] at hev
    simp only [List.mem_cons, Event.read.injEq] at hr
    rcases hr with h | h
    · cases h
    · rcases hev _ h with ⟨c, p, o, e⟩ | ⟨t, g, a, x, e⟩ | ⟨x, e⟩ | e <;> cases e
  | readErr hread =>
    intro r hr
    simp at hr
  | indexPanic hread hp =>
    intro r hr
    simp only [List.mem_singleton, Event.read.injEq, ReadResult.record.injEq] at hr
    subst hr
    exact (readRecord_pos hpos hread).2
  | @flushErr line rest fpr fpr1 tx tx1 customers products orders count batchNum r c p o bevs
      err hread hp hge hb =>
    intro x hx
    have hex := executeBatch_events tx (customers ++ [c]) (products ++ [p]) (orders ++ [o])
    rw [hb] at hex
    simp only [List.cons_append, List.mem_cons, List.mem_append, List.mem_singleton,
      List.not_mem_nil, or_false, Event.read.injEq, ReadResult.record.injEq] at hx
    rcases hx with h | h | h | h
    · subst h; exact (readRecord_pos hpos hread).2
    · cases h
    · obtain ⟨t, g, a, y, e⟩ := hex _ h; cases e
    · cases h
  | @flushOk line rest fpr fpr1 tx tx1 customers products orders count batchNum r c p o bevs
      more out hread hp hge hb _ ih =>
    intro x hx
    have hex := executeBatch_events tx (customers ++ [c]) (products ++ [p]) (orders ++ [o])
    rw [hb] at hex
    obtain ⟨h1, h2⟩ := readRecord_pos hpos hread
    simp only [List.cons_append, List.mem_cons, List.mem_append, Event.read.injEq,
      ReadResult.record.injEq] at hx
    rcases hx with h | h | h | h
    · subst h; exact h2
    · cases h
    · obtain ⟨t, g, a, y, e⟩ := hex _ h; cases e
    · have := ih (by omega) x h
      omega
  | @keep line rest fpr fpr1 tx customers products orders count batchNum r c p o more out
      hread hp hlt _ ih =>
    intro x hx
    obtain ⟨h1, h2⟩ := readRecord_pos hpos hread
    simp only [List.mem_cons, Event.read.injEq, ReadResult.record.injEq] at hx
    rcases hx with h | h
    · subst h; exact h2
    · have := ih (by omega) x h
      omega

theorem finish_no_panic (tx : Tx) (customers products orders : List (List String))
    (count : Nat) : (finish tx customers products orders count).2 ≠ .panic := by
  rcases finish_cases tx customers products orders count with
    ⟨_, h⟩ | ⟨_, c, h⟩ | ⟨_, err, _, h⟩ | ⟨_, _, h⟩ | ⟨_, _, c, h⟩ <;> rw [h] <;> simp

theorem LoopRun.no_panic {cap : Nat} {lines : List Line} {fpr : Nat} {tx : Tx}
    {customers products orders : List (List String)} {count batchNum : Nat}
    {evs : List Event} {out : Outcome}
    (h : LoopRun cap lines fpr tx customers products orders count batchNum evs out)
    (hfpr : 15 ≤ fpr) : out ≠ .panic := by
  induction h with
  | @stop fpr tx customers products orders count batchNum evs out hf =>
    have := finish_no_panic tx customers products orders count
    rw [hf] at this
    exact this
  | readErr hread => simp
  | @indexPanic line rest fpr fpr1 tx customers products orders count batchNum r hread hp =>
    obtain ⟨_, h2⟩ := readRecord_pos (by omega) hread
    have h15 : 15 ≤ r.length := by omega
    obtain ⟨c, p, o, hs⟩ := projections_of_le h15
    rw [hs] at hp
    cases hp
  | flushErr hread hp hge hb => simp
  | flushOk hread hp hge hb _ ih =>
    obtain ⟨h1, _⟩ := readRecord_pos (by omega) hread
    exact ih (by omega)
  | keep hread hp hlt _ ih =>
    obtain ⟨h1, _⟩ := readRecord_pos (by omega) hread
    exact ih (by omega)

/-! ### A failed run stops at the failure and rolls back -/

theorem quiet_read_record (r : List String) : quiet (.read (.record r)) := by
  simp [quiet, failureCause]

theorem quiet_read_eof : quiet (.read .eof) := by
  simp [quiet, failureCause]

theorem quiet_batch (c p o : List (List String)) : quiet (.batch c p o) := by
  simp [quiet, failureCause]

theorem quiet_exec (t : Table) (g : Nat) (a : List String) : quiet (.exec t g a none) := by
  simp [quiet, failureCause]

theorem executeBatch_failed {tx : Tx} {customers products orders : List (List String)}
    {err : String} (h : (executeBatch tx customers products orders).2.1 = some err) :
    ∃ pre e, (executeBatch tx customers products orders).1 = pre ++ [e] ∧
      (∀ x ∈ pre, quiet x) ∧
      ∃ t g a cause, e = .exec t g a (some cause) ∧ err = insertError t cause := by
  rcases executeBatch_cases tx customers products orders with
    ⟨c, _, h1, h2⟩ | ⟨c, _, _, h1, h2⟩ | ⟨c, _, _, _, h1, h2⟩ | ⟨_, _, _, _, h2, _⟩
  · rw [h2] at h
    simp only [Option.some.injEq] at h
    exact ⟨[], _, by rw [h1]; rfl, by simp, _, _, _, c, rfl, by rw [← h]; rfl⟩
  · rw [h2] at h
    simp only [Option.some.injEq] at h
    refine ⟨[_], _, by rw [h1]; rfl, ?_, _, _, _, c, rfl, by rw [← h]; rfl⟩
    intro x hx
    simp only [List.mem_singleton] at hx
    subst hx
    exact quiet_exec _ _ _
  · rw [h2] at h
    simp only [Option.some.injEq] at h
    refine ⟨[_, _], _, by rw [h1]; rfl, ?_, _, _, _, c, rfl, by rw [← h]; rfl⟩
    intro x hx
    simp only [List.mem_cons, List.mem_singleton, List.not_mem_nil, or_false] at hx
    rcases hx with rfl | rfl <;> exact quiet_exec _ _ _
  · rw [h2] at h
    cases h

theorem executeBatch_succeeded {tx : Tx} {customers products orders : List (List String)}
    (h : (executeBatch tx customers products orders).2.1 = none) :
    (executeBatch tx customers products orders).1 =
      (batchEvents customers products orders).tail := by
  rcases executeBatch_cases tx customers products orders with
    ⟨c, _, _, h2⟩ | ⟨c, _, _, _, h2⟩ | ⟨c, _, _, _, _, h2⟩ | ⟨_, _, _, h1, _⟩
  · rw [h2] at h; cases h
  · rw [h2] at h; cases h
  · rw [h2] at h; cases h
  · rw [h1]; rfl

theorem quiet_batchEvents (c p o : List (List String)) :
    ∀ x ∈ batchEvents c p o, quiet x := by
  intro x hx
  simp only [batchEvents, List.mem_cons, List.mem_singleton, List.not_mem_nil, or_false] at hx
  rcases hx with rfl | rfl | rfl | rfl
  · exact quiet_batch _ _ _
  · exact quiet_exec _ _ _
  · exact quiet_exec _ _ _
  · exact quiet_exec _ _ _

theorem batch_cons_succeeded {tx : Tx} {customers products orders : List (List String)}
    (h : (executeBatch tx customers products orders).2.1 = none) :
    .batch customers products orders :: (executeBatch tx customers products orders).1 =
      batchEvents customers products orders := by
  rw [executeBatch_succeeded h]; rfl

theorem finish_failed {tx : Tx} {customers products orders : List (List String)} {count : Nat}
    {msg : String} (h : (finish tx customers products orders count).2 = .error msg) :
    ∃ pre e, (finish tx customers products orders count).1 = pre ++ [e, .rollback] ∧
      reported e msg ∧ ∀ x ∈ pre, quiet x := by
  rcases finish_cases tx customers products orders count with
    ⟨_, hf⟩ | ⟨_, c, hf⟩ | ⟨_, err, hb, hf⟩ | ⟨_, _, hf⟩ | ⟨_, hb, c, hf⟩
  · rw [hf] at h; cases h
  · rw [hf] at h ⊢
    simp only [Outcome.error.injEq] at h
    exact ⟨[], _, rfl, by simp [reported, h], by simp⟩
  · rw [hf] at h ⊢
    simp only [Outcome.error.injEq] at h
    obtain ⟨pre, e, h1, h2, t, g, a, cause, rfl, rfl⟩ := executeBatch_failed hb
    refine ⟨.batch customers products orders :: pre, .exec t g a (some cause),
      by simp [h1], ?_, ?_⟩
    · simp [reported, h]
    · intro x hx
      rcases List.mem_cons.1 hx with rfl | hx
      · exact quiet_batch _ _ _
      · exact h2 x hx
  · rw [hf] at h; cases h
  · rw [hf] at h ⊢
    simp only [Outcome.error.injEq] at h
    rw [batch_cons_succeeded hb]
    exact ⟨batchEvents customers products orders, _, rfl, by simp [reported, h],
      quiet_batchEvents _ _ _⟩

/-- A run of the loop that returns an error performed, up to the failed
operation, only operations that succeeded and no commit, reports that
failure, and did nothing after it but roll back. -/
theorem LoopRun.failed {cap : Nat} {lines : List Line} {fpr : Nat} {tx : Tx}
    {customers products orders : List (List String)} {count batchNum : Nat}
    {evs : List Event} {out : Outcome}
    (h : LoopRun cap lines fpr tx customers products orders count batchNum evs out)
    (msg : String) (hout : out = .error msg) :
    ∃ pre e, evs = pre ++ [e, .rollback] ∧ reported e msg ∧ ∀ x ∈ pre, quiet x := by
  induction h with
  | @stop fpr tx customers products orders count batchNum evs out hf =>
    subst hout
    have h2 : (finish tx customers products orders count).2 = .error msg := by rw [hf]
    obtain ⟨pre, e, h1, hr, hq⟩ := finish_failed h2
    rw [hf] at h1
    simp only at h1
    refine ⟨.read .eof :: pre, e, by rw [h1]; rfl, hr, ?_⟩
    intro x hx
    rcases List.mem_cons.1 hx with rfl | hx
    · exact quiet_read_eof
    · exact hq x hx
  | readErr hread =>
    simp only [Outcome.error.injEq] at hout
    exact ⟨[], _, rfl, by simp [reported, hout], by simp⟩
  | indexPanic hread hp => cases hout
  | @flushErr line rest fpr fpr1 tx tx1 customers products orders count batchNum r c p o bevs
      err hread hp hge hb =>
    simp only [Outcome.error.injEq] at hout
    have hb2 : (executeBatch tx (customers ++ [c]) (products ++ [p]) (orders ++ [o])).2.1
        = some err := by rw [hb]
    obtain ⟨pre, e, h1, h2, t, g, a, cause, rfl, rfl⟩ := executeBatch_failed hb2
    rw [hb] at h1
    simp only at h1
    refine ⟨.read (.record r) ::
      .batch (customers ++ [c]) (products ++ [p]) (orders ++ [o]) :: pre,
      .exec t g a (some cause), by simp [h1], ?_, ?_⟩
    · simp only [reported]
      exact Or.inl ⟨batchNum + 1, hout.symm⟩
    · intro x hx
      simp only [List.mem_cons] at hx
      rcases hx with rfl | rfl | hx
      · exact quiet_read_record _
      · exact quiet_batch _ _ _
      · exact h2 x hx
  | @flushOk line rest fpr fpr1 tx tx1 customers products orders count batchNum r c p o bevs
      more out hread hp hge hb _ ih =>
    obtain ⟨pre, e, h1, hr, hq⟩ := ih hout
    have hb1 := executeBatch_ok hb
    refine ⟨.read (.record r) ::
      (batchEvents (customers ++ [c]) (products ++ [p]) (orders ++ [o]) ++ pre), e,
      ?_, hr, ?_⟩
    · rw [h1, ← hb1]; simp
    · intro x hx
      simp only [List.mem_cons, List.mem_append] at hx
      rcases hx with rfl | hx | hx
      · exact quiet_read_record _
      · exact quiet_batchEvents _ _ _ x hx
      · exact hq x hx
  | @keep line rest fpr fpr1 tx customers products orders count batchNum r c p o more out
      hread hp hlt _ ih =>
    obtain ⟨pre, e, h1, hr, hq⟩ := ih hout
    refine ⟨.read (.record r) :: pre, e, by rw [h1]; rfl, hr, ?_⟩
    intro x hx
    rcases List.mem_cons.1 hx with rfl | hx
    · exact quiet_read_record _
    · exact hq x hx

theorem failureCause_of_quiet {x : Event} (h : quiet x) : failureCause x = none :=
  h.1

theorem finish_error_of_failure {tx : Tx} {customers products orders : List (List String)}
    {count : Nat} {e : Event} {cause : String}
    (he : e ∈ (finish tx customers products orders count).1)
    (hc : failureCause e = some cause) :
    ∃ msg, (finish tx customers products orders count).2 = .error msg := by
  rcases finish_cases tx customers products orders count with
    ⟨_, hf⟩ | ⟨_, c, hf⟩ | ⟨_, err, hb, hf⟩ | ⟨_, hb, hf⟩ | ⟨_, hb, c, hf⟩
  · rw [hf] at he
    simp only [List.mem_singleton] at he
    subst he
    simp [failureCause] at hc
  · rw [hf]; exact ⟨_, rfl⟩
  · rw [hf]; exact ⟨_, rfl⟩
  · rw [hf, batch_cons_succeeded hb] at he
    simp only [List.mem_append, List.mem_singleton] at he
    rcases he with h | h
    · rw [failureCause_of_quiet (quiet_batchEvents _ _ _ e h)] at hc
      cases hc
    · subst h
      simp [failureCause] at hc
  · rw [hf]; exact ⟨_, rfl⟩

/-- A run of the loop in which an operation failed returns an error. -/
theorem LoopRun.error_of_failure {cap : Nat} {lines : List Line} {fpr : Nat} {tx : Tx}
    {customers products orders : List (List String)} {count batchNum : Nat}
    {evs : List Event} {out : Outcome}
    (h : LoopRun cap lines fpr tx customers products orders count batchNum evs out)
    (e : Event) (cause : String) (he : e ∈ evs) (hc : failureCause e = some cause) :
    ∃ msg, out = .error msg := by
  induction h with
  | @stop fpr tx customers products orders count batchNum evs out hf =>
    rcases List.mem_cons.1 he with h | h
    · subst h
      simp [failureCause] at hc
    · have := @finish_error_of_failure tx customers products orders count e cause
        (by rw [hf]; exact h) hc
      rw [hf] at this
      exact this
  | readErr hread => exact ⟨_, rfl⟩
  | indexPanic hread hp =>
    simp only [List.mem_singleton] at he
    subst he
    simp [failureCause] at hc
  | flushErr hread hp hge hb => exact ⟨_, rfl⟩
  | @flushOk line rest fpr fpr1 tx tx1 customers products orders count batchNum r c p o bevs
      more out hread hp hge hb _ ih =>
    have hb1 := executeBatch_ok hb
    rw [List.cons_append, List.cons_append, ← List.cons_append, hb1] at he
    simp only [List.mem_cons, List.mem_append] at he
    rcases he with h | h | h
    · subst h
      simp [failureCause] at hc
    · rw [failureCause_of_quiet (quiet_batchEvents _ _ _ e h)] at hc
      cases hc
    · exact ih h
  | keep hread hp hlt _ ih =>
    rcases List.mem_cons.1 he with h | h
    · subst h
      simp [failureCause] at hc
    · exact ih h

theorem finish_ok_of_commit {tx : Tx} {customers products orders : List (List String)}
    {count : Nat} (he : Event.commit none ∈ (finish tx customers products orders count).1) :
    (finish tx customers products orders count).2 = .ok := by
  have hex := executeBatch_events tx customers products orders
  rcases finish_cases tx customers products orders count with
    ⟨_, hf⟩ | ⟨_, c, hf⟩ | ⟨_, err, hb, hf⟩ | ⟨_, hb, hf⟩ | ⟨_, hb, c, hf⟩
  · rw [hf]
  · rw [hf] at he
    simp at he
  · rw [hf] at he
    simp only [List.cons_append, List.mem_cons, List.mem_append, List.mem_singleton,
      List.not_mem_nil, or_false] at he
    rcases he with h | h | h
    · cases h
    · obtain ⟨t, g, a, r, e⟩ := hex _ h
      cases e
    · cases h
  · rw [hf]
  · rw [hf] at he
    simp only [List.cons_append, List.mem_cons, List.mem_append, List.mem_singleton,
      List.not_mem_nil, or_false] at he
    rcases he with h | h | h | h
    · cases h
    · obtain ⟨t, g, a, r, e⟩ := hex _ h
      cases e
    · cases h
    · cases h

/-- A run of the loop in which a commit succeeded returns `nil`. -/
theorem LoopRun.ok_of_commit {cap : Nat} {lines : List Line} {fpr : Nat} {tx : Tx}
    {customers products orders : List (List String)} {count batchNum : Nat}
    {evs : List Event} {out : Outcome}
    (h : LoopRun cap lines fpr tx customers products orders count batchNum evs out)
    (he : Event.commit none ∈ evs) : out = .ok := by
  induction h with
  | @stop fpr tx customers products orders count batchNum evs out hf =>
    rcases List.mem_cons.1 he with h | h
    · cases h
    · have := @finish_ok_of_commit tx customers products orders count (by rw [hf]; exact h)
      rw [hf] at this
      exact this
  | readErr hread => simp at he
  | indexPanic hread hp => simp at he
  | @flushErr line rest fpr fpr1 tx tx1 customers products orders count batchNum r c p o bevs
      err hread hp hge hb =>
    have hex := executeBatch_events tx (customers ++ [c]) (products ++ [p]) (orders ++ [o])
    rw [hb] at hex
    simp only [List.cons_append, List.mem_cons, List.mem_append, List.mem_singleton,
      List.not_mem_nil, or_false] at he
    rcases he with h | h | h | h
    · cases h
    · cases h
    · obtain ⟨t, g, a, x, e⟩ := hex _ h
      cases e
    · cases h
  | @flushOk line rest fpr fpr1 tx tx1 customers products orders count batchNum r c p o bevs
      more out hread hp hge hb _ ih =>
    have hex := executeBatch_events tx (customers ++ [c]) (products ++ [p]) (orders ++ [o])
    rw [hb] at hex
    simp only [List.cons_append, List.mem_cons, List.mem_append] at he
    rcases he with h | h | h | h
    · cases h
    · cases h
    · obtain ⟨t, g, a, x, e⟩ := hex _ h
      cases e
    · exact ih h
  | keep hread hp hlt _ ih =>
    rcases List.mem_cons.1 he with h | h
    · cases h
    · exact ih h

theorem DB.committed_of_no_commit : ∀ (evs : List Event) (db : DB),
    Event.commit none ∉ evs → (DB.run db evs).committed = db.committed := by
  intro evs
  induction evs with
  | nil => intro db _; rfl
  | cons e evs ih =>
    intro db h
    simp only [List.mem_cons, not_or] at h
    rw [DB.run_cons, ih _ h.2]
    cases e with
    | commit err =>
      cases err with
      | none => exact absurd rfl h.1
      | some c => rfl
    | exec t g a res => cases res <;> rfl
    | txBegin err => cases err <;> rfl
    | _ => rfl

/-! ### Customers and products are written before the orders that name them -/

theorem projections_refs {r c p o : List String} (h : projections r = some (c, p, o)) :
    ∃ id cust prod fields, o = id :: cust :: prod :: fields ∧
      c.head? = some cust ∧ p.head? = some prod := by
  obtain ⟨h1, h2, h3⟩ := projections_rows h
  simp only [customerRow, Option.bind_eq_some] at h1
  obtain ⟨c0, hc0, _, _, _, _, _, _, h1⟩ := h1
  simp only [Option.some.injEq] at h1
  simp only [productRow, Option.bind_eq_some] at h2
  obtain ⟨p0, hp0, _, _, _, _, h2⟩ := h2
  simp only [Option.some.injEq] at h2
  simp only [orderRow, Option.bind_eq_some] at h3
  obtain ⟨o0, _, o1, ho1, o2, ho2, _, _, _, _, _, _, _, _, _, _, _, _, _, _, h3⟩ := h3
  simp only [Option.some.injEq] at h3
  rw [hc0] at ho1
  rw [hp0] at ho2
  simp only [Option.some.injEq] at ho1 ho2
  subst ho1 ho2
  exact ⟨o0, c0, p0, _, h3.symm, by rw [← h1]; rfl, by rw [← h2]; rfl⟩

theorem Buffered.refs {customers products orders : List (List String)} {count : Nat}
    (hb : Buffered customers products orders count) :
    ∀ row ∈ orders, ∃ id cust prod fields, row = id :: cust :: prod :: fields ∧
      (∃ cr ∈ customers, cr.head? = some cust) ∧ (∃ pr ∈ products, pr.head? = some prod) := by
  obtain ⟨ts, h0, h1, h2, h3, _⟩ := hb
  intro row hrow
  rw [h3, List.mem_map] at hrow
  obtain ⟨⟨c, p, o⟩, ht, rfl⟩ := hrow
  obtain ⟨r, hr⟩ := h0 _ ht
  obtain ⟨id, cust, prod, fields, e, hc, hp⟩ := projections_refs hr
  refine ⟨id, cust, prod, fields, e, ⟨c, ?_, hc⟩, ⟨p, ?_, hp⟩⟩
  · rw [h1]; exact List.mem_map.2 ⟨_, ht, rfl⟩
  · rw [h2]; exact List.mem_map.2 ⟨_, ht, rfl⟩

theorem RefOrdered.nil : RefOrdered [] := by
  intro pre post g a r h
  cases pre <;> simp at h

theorem RefOrdered.cons {e : Event} {evs : List Event}
    (hne : ∀ g a r, e ≠ .exec .orders g a r) (h : RefOrdered evs) : RefOrdered (e :: evs) := by
  intro pre post g a r heq
  rcases pre with _ | ⟨x, pre⟩
  · simp only [List.nil_append, List.cons.injEq] at heq
    exact absurd heq.1 (hne g a r)
  · simp only [List.cons_append, List.cons.injEq] at heq
    obtain ⟨rfl, heq⟩ := heq
    obtain ⟨pre1, c, p, o, h1, rest⟩ := h pre post g a r heq
    exact ⟨e :: pre1, c, p, o, by rw [h1]; rfl, rest⟩

theorem RefOrdered.block {c p o : List (List String)} {count : Nat} {tail : List Event}
    (hb : Buffered c p o count) (res : Option String) (h : RefOrdered tail) :
    RefOrdered (.batch c p o :: .exec .customers c.length (flattenVals c) none ::
      .exec .products p.length (flattenVals p) none ::
      .exec .orders o.length (flattenVals o) res :: tail) := by
  intro pre post g a r heq
  rcases pre with _ | ⟨x0, _ | ⟨x1, _ | ⟨x2, _ | ⟨x3, pre⟩⟩⟩⟩
  · simp at heq
  · simp at heq
  · simp at heq
  · simp only [List.cons_append, List.nil_append, List.cons.injEq, Event.exec.injEq,
      true_and] at heq
    obtain ⟨rfl, rfl, rfl, ⟨rfl, rfl, rfl⟩, rfl⟩ := heq
    refine ⟨[], c, p, o, rfl, rfl, rfl, ?_, ?_, ?_, hb.refs⟩
    · exact stmtRows_flattenVals .customers c (hb.row_length .customers)
    · exact stmtRows_flattenVals .products p (hb.row_length .products)
    · exact stmtRows_flattenVals .orders o (hb.row_length .orders)
  · simp only [List.cons_append, List.cons.injEq] at heq
    obtain ⟨rfl, rfl, rfl, rfl, heq⟩ := heq
    obtain ⟨pre1, c1, p1, o1, h1, rest⟩ := h pre post g a r heq
    exact ⟨_ :: _ :: _ :: _ :: pre1, c1, p1, o1, by rw [h1]; rfl, rest⟩

theorem RefOrdered.batch {c p o : List (List String)} {count : Nat} {tail : List Event}
    (tx : Tx) (hb : Buffered c p o count) (h : RefOrdered tail) :
    RefOrdered (.batch c p o :: (executeBatch tx c p o).1 ++ tail) := by
  rcases executeBatch_cases tx c p o with
    ⟨e, _, h1, _⟩ | ⟨e, _, _, h1, _⟩ | ⟨e, _, _, _, h1, _⟩ | ⟨_, _, _, h1, _⟩ <;> rw [h1]
  · exact RefOrdered.cons (by simp) (RefOrdered.cons (by simp) h)
  · exact RefOrdered.cons (by simp) (RefOrdered.cons (by simp) (RefOrdered.cons (by simp) h))
  · exact RefOrdered.block hb _ h
  · exact RefOrdered.block hb _ h

theorem finish_refOrdered {tx : Tx} {customers products orders : List (List String)}
    {count : Nat} (hb : Buffered customers products orders count) :
    RefOrdered (finish tx customers products orders count).1 := by
  rcases finish_cases tx customers products orders count with
    ⟨_, hf⟩ | ⟨_, c, hf⟩ | ⟨_, err, _, hf⟩ | ⟨_, _, hf⟩ | ⟨_, _, c, hf⟩ <;> rw [hf]
  · exact RefOrdered.cons (by simp) RefOrdered.nil
  · exact RefOrdered.cons (by simp) (RefOrdered.cons (by simp) RefOrdered.nil)
  · exact RefOrdered.batch tx hb (RefOrdered.cons (by simp) RefOrdered.nil)
  · exact RefOrdered.batch tx hb (RefOrdered.cons (by simp) RefOrdered.nil)
  · exact RefOrdered.batch tx hb
      (RefOrdered.cons (by simp) (RefOrdered.cons (by simp) RefOrdered.nil))

theorem LoopRun.refOrdered {cap : Nat} {lines : List Line} {fpr : Nat} {tx : Tx}
    {customers products orders : List (List String)} {count batchNum : Nat}
    {evs : List Event} {out : Outcome}
    (h : LoopRun cap lines fpr tx customers products orders count batchNum evs out)
    (hb : Buffered customers products orders count) : RefOrdered evs := by
  induction h with
  | @stop fpr tx customers products orders count batchNum evs out hf =>
    have := @finish_refOrdered tx customers products orders count hb
    rw [hf] at this
    exact RefOrdered.cons (by simp) this
  | readErr hread =>
    exact RefOrdered.cons (by simp) (RefOrdered.cons (by simp) RefOrdered.nil)
  | indexPanic hread hp => exact RefOrdered.cons (by simp) RefOrdered.nil
  | @flushErr line rest fpr fpr1 tx tx1 customers products orders count batchNum r c p o bevs
      err hread hp hge hb1 =>
    have hroll : RefOrdered [Event.rollback] := RefOrdered.cons (by simp) RefOrdered.nil
    have := RefOrdered.batch tx (hb.snoc hp) hroll
    rw [hb1] at this
    exact RefOrdered.cons (by simp) this
  | @flushOk line rest fpr fpr1 tx tx1 customers products orders count batchNum r c p o bevs
      more out hread hp hge hb1 _ ih =>
    have := RefOrdered.batch tx (hb.snoc hp) (ih Buffered.empty)
    rw [hb1] at this
    exact RefOrdered.cons (by simp) this
  | keep hread hp hlt _ ih =>
    exact RefOrdered.cons (by simp) (ih (hb.snoc hp))

/-! ### Upserts -/

theorem upsertRows_snoc (m : TableMap) (rows : List (List String)) (row : List String) :
    upsertRows m (rows ++ [row]) = upsertRow (upsertRows m rows) row := by
  simp [upsertRows, List.foldl_append]

/-- The content of a table after an upsert, key by key: the fields written
last for the key if the rows hold the key, the former content otherwise. -/
theorem upsertRows_apply (m : TableMap) (rows : List (List String)) (k : String) :
    upsertRows m rows k =
      match upsertRows (fun _ => none) rows k with
      | some v => some v
      | none => m k := by
  induction rows using List.reverseRecOn with
  | nil => rfl
  | append_singleton rows row ih =>
    rw [upsertRows_snoc, upsertRows_snoc]
    cases row with
    | nil => exact ih
    | cons id fields =>
      simp only [upsertRow]
      by_cases hk : k = id
      · simp [hk]
      · simp only [hk, if_false]
        exact ih

theorem upsertRows_idem (m : TableMap) (rows : List (List String)) :
    upsertRows (upsertRows m rows) rows = upsertRows m rows := by
  funext k
  rw [upsertRows_apply (upsertRows m rows), upsertRows_apply m]
  cases upsertRows (fun _ => none) rows k <;> rfl

theorem upsertRows_mono (m : TableMap) (rows : List (List String)) (k : String)
    (h : (m k).isSome) : (upsertRows m rows k).isSome := by
  rw [upsertRows_apply]
  cases upsertRows (fun _ => none) rows k with
  | none => exact h
  | some v => rfl

theorem upsertRows_isSome_of_mem (m : TableMap) (rows : List (List String))
    (row : List String) (k : String) (hrow : row ∈ rows) (hk : row.head? = some k) :
    (upsertRows m rows k).isSome := by
  induction rows using List.reverseRecOn with
  | nil => cases hrow
  | append_singleton rows last ih =>
    rw [upsertRows_snoc]
    rcases List.mem_append.1 hrow with h | h
    · have := ih h
      cases last with
      | nil => exact this
      | cons id fields =>
        simp only [upsertRow]
        by_cases e : k = id
        · simp [e]
        · simpa [e] using this
    · simp only [List.mem_singleton] at h
      subst h
      cases row with
      | nil => cases hk
      | cons id fields =>
        simp only [List.head?_cons, Option.some.injEq] at hk
        simp [upsertRow, hk]

theorem upsertRows_written (rows : List (List String)) (k : String) (v : List String)
    (h : upsertRows (fun _ => none) rows k = some v) : (k :: v) ∈ rows := by
  induction rows using List.reverseRecOn with
  | nil => cases h
  | append_singleton rows last ih =>
    rw [upsertRows_snoc] at h
    cases last with
    | nil => exact List.mem_append_left _ (ih h)
    | cons id fields =>
      simp only [upsertRow] at h
      by_cases e : k = id
      · simp only [e, if_true, Option.some.injEq] at h
        simp [e, h]
      · simp only [e, if_false] at h
        exact List.mem_append_left _ (ih h)

theorem Store.written_idem (s : Store) (c p o : List (List String)) :
    (s.written c p o).written c p o = s.written c p o := by
  simp [Store.written, upsertRows_idem]

/-! ### The store after a run that returns `nil` -/

theorem OkRun.projected {cap : Nat} {customers products orders : List (List String)}
    {count : Nat} {rs : List (List String)} {evs : List Event}
    (h : OkRun cap customers products orders count rs evs) :
    ∀ r ∈ rs, ∃ c p o, projections r = some (c, p, o) := by
  induction h with
  | eof customers products orders => intro r hr; cases hr
  | final customers products orders count h0 => intro r hr; cases hr
  | keep hp hlt _ ih =>
    intro r hr
    rcases List.mem_cons.1 hr with rfl | hr
    · exact ⟨_, _, _, hp⟩
    · exact ih r hr
  | flush hp hge _ ih =>
    intro r hr
    rcases List.mem_cons.1 hr with rfl | hr
    · exact ⟨_, _, _, hp⟩
    · exact ih r hr

theorem OkRun.batch_mem {cap : Nat} {customers products orders : List (List String)}
    {count : Nat} {rs : List (List String)} {evs : List Event}
    (h : OkRun cap customers products orders count rs evs) (c p o : List (List String))
    (hmem : Event.batch c p o ∈ evs) :
    ∀ row ∈ o, row ∈ orders ++ rs.filterMap orderRow := by
  induction h with
  | eof customers products orders => simp at hmem
  | final customers products orders count h0 =>
    simp [batchEvents] at hmem
    obtain ⟨_, _, rfl⟩ := hmem
    intro row hrow
    simpa using hrow
  | @keep customers products orders count r c1 p1 o1 rs evs hp hlt _ ih =>
    obtain ⟨_, _, h3⟩ := projections_rows hp
    simp only [List.mem_cons] at hmem
    rcases hmem with h | h
    · cases h
    · intro row hrow
      have := ih h row hrow
      simpa [List.filterMap_cons, h3] using this
  | @flush customers products orders count r c1 p1 o1 rs evs hp hge _ ih =>
    obtain ⟨_, _, h3⟩ := projections_rows hp
    simp [batchEvents] at hmem
    intro row hrow
    simp only [List.filterMap_cons, h3]
    rcases hmem with ⟨_, _, rfl⟩ | h
    · have : row ∈ orders ++ [o1] := hrow
      simp only [List.mem_append, List.mem_singleton] at this
      rcases this with h | h
      · exact List.mem_append_left _ h
      · exact List.mem_append_right _ (by simp [h])
    · have := ih h row hrow
      simp only [List.nil_append] at this
      exact List.mem_append_right _ (List.mem_cons_of_mem _ this)

theorem order_refs_written {rs : List (List String)}
    (hrs : ∀ r ∈ rs, ∃ c p o, projections r = some (c, p, o)) (s : Store)
    (row : List String) (hrow : row ∈ rs.filterMap orderRow) :
    ∃ id cust prod fields, row = id :: cust :: prod :: fields ∧
      ((s.written (rs.filterMap customerRow) (rs.filterMap productRow)
        (rs.filterMap orderRow)).customers cust).isSome ∧
      ((s.written (rs.filterMap customerRow) (rs.filterMap productRow)
        (rs.filterMap orderRow)).products prod).isSome := by
  rw [List.mem_filterMap] at hrow
  obtain ⟨r, hr, hro⟩ := hrow
  obtain ⟨c, p, o, hp⟩ := hrs r hr
  obtain ⟨h1, h2, h3⟩ := projections_rows hp
  rw [h3] at hro
  simp only [Option.some.injEq] at hro
  subst hro
  obtain ⟨id, cust, prod, fields, e, hc, hpr⟩ := projections_refs hp
  refine ⟨id, cust, prod, fields, e, ?_, ?_⟩
  · exact upsertRows_isSome_of_mem _ _ c cust (List.mem_filterMap.2 ⟨r, hr, h1⟩) hc
  · exact upsertRows_isSome_of_mem _ _ p prod (List.mem_filterMap.2 ⟨r, hr, h2⟩) hpr

theorem refClosed_written {rs : List (List String)}
    (hrs : ∀ r ∈ rs, ∃ c p o, projections r = some (c, p, o)) (s : Store)
    (hs : RefClosed s) :
    RefClosed (s.written (rs.filterMap customerRow) (rs.filterMap productRow)
      (rs.filterMap orderRow)) := by
  intro k v hkv
  have hkv1 : upsertRows s.orders (rs.filterMap orderRow) k = some v := hkv
  rw [upsertRows_apply] at hkv1
  rcases hw : upsertRows (fun _ => none) (rs.filterMap orderRow) k with _ | w
  · rw [hw] at hkv1
    obtain ⟨cust, prod, fields, e, hc, hp⟩ := hs k v hkv1
    exact ⟨cust, prod, fields, e, upsertRows_mono _ _ _ hc, upsertRows_mono _ _ _ hp⟩
  · rw [hw] at hkv1
    simp only [Option.some.injEq] at hkv1
    subst hkv1
    obtain ⟨id, cust, prod, fields, e, hc, hp⟩ :=
      order_refs_written hrs s (k :: w) (upsertRows_written _ _ _ hw)
    simp only [List.cons.injEq] at e
    exact ⟨cust, prod, fields, e.2, hc, hp⟩

/-! ## `RefreshData` as a whole -/

theorem readRecord_header (h : List String) :
    readRecord 0 (.fields h) = (.ok h, h.length) := by
  simp [readRecord]

/-- The five ways a run of `RefreshData` can go up to the loop. -/
theorem RefreshDataWith_cases (cap : Nat) (env : Env) :
    (∃ e, env.openErr = some e ∧ RefreshDataWith cap env =
      ([.openFile (some e)], .error ("error opening file: " ++ e))) ∨
    (env.openErr = none ∧ env.lines = [] ∧ RefreshDataWith cap env =
      ([.openFile none, .read .eof], .error "error reading header: EOF")) ∨
    (env.openErr = none ∧ ∃ cause rest, env.lines = .bad cause :: rest ∧
      RefreshDataWith cap env =
        ([.openFile none, .read (.err cause)], .error ("error reading header: " ++ cause))) ∨
    (env.openErr = none ∧ ∃ h rest e, env.lines = .fields h :: rest ∧ env.beginErr = some e ∧
      RefreshDataWith cap env =
        ([.openFile none, .read (.record h), .txBegin (some e)],
          .error ("error starting transaction: " ++ e))) ∨
    (env.openErr = none ∧ ∃ h rest, env.lines = .fields h :: rest ∧ env.beginErr = none ∧
      RefreshDataWith cap env =
        (.openFile none :: .read (.record h) :: .txBegin none ::
          (loop cap rest h.length env.tx [] [] [] 0 0).1,
         (loop cap rest h.length env.tx [] [] [] 0 0).2)) := by
  rcases ho : env.openErr with _ | e
  · right
    rcases hl : env.lines with _ | ⟨line, rest⟩
    · left
      exact ⟨rfl, rfl, by simp [RefreshDataWith, ho, hl]⟩
    · right
      cases line with
      | bad cause =>
        left
        exact ⟨rfl, cause, rest, rfl, by simp [RefreshDataWith, ho, hl, readRecord]⟩
      | fields h =>
        right
        rcases hb : env.beginErr with _ | e
        · right
          exact ⟨rfl, h, rest, rfl, rfl, by simp [RefreshDataWith, ho, hl, hb, readRecord]⟩
        · left
          exact ⟨rfl, h, rest, e, rfl, rfl, by simp [RefreshDataWith, ho, hl, hb, readRecord]⟩
  · left
    exact ⟨e, rfl, by simp [RefreshDataWith, ho]⟩

/-- A run that returns `nil` opened the file, read the header, began the
transaction and then ran the loop over decodable records. -/
theorem RefreshDataWith_ok {cap : Nat} {env : Env} (h : (RefreshDataWith cap env).2 = .ok) :
    ∃ hd rs evs, env.lines = .fields hd :: rs.map .fields ∧
      (RefreshDataWith cap env).1 =
        .openFile none :: .read (.record hd) :: .txBegin none :: evs ∧
      OkRun cap [] [] [] 0 rs evs := by
  rcases RefreshDataWith_cases cap env with
    ⟨e, _, hr⟩ | ⟨_, _, hr⟩ | ⟨_, c, rest, _, hr⟩ | ⟨_, hd, rest, e, _, _, hr⟩ |
    ⟨_, hd, rest, hl, _, hr⟩
  · rw [hr] at h; cases h
  · rw [hr] at h; cases h
  · rw [hr] at h; cases h
  · rw [hr] at h; cases h
  · rw [hr] at h
    simp only at h
    obtain ⟨rs, hrs, hrun⟩ := loop_ok cap rest hd.length env.tx [] [] [] 0 0 _ (Prod.ext rfl h)
    exact ⟨hd, rs, _, by rw [hl, hrs], by rw [hr], hrun⟩

/-- On a well-formed source and a store that fails nothing the run returns
`nil`. -/
theorem RefreshDataWith_quiet (cap : Nat) (env : Env) (hd : List String)
    (rs : List (List String)) (hopen : env.openErr = none)
    (hlines : env.lines = .fields hd :: rs.map .fields) (hhd : hd.length = 15)
    (hrs : ∀ r ∈ rs, r.length = 15) (hbegin : env.beginErr = none)
    (hexec : ∀ k, env.tx.execErr k = none) (hcommit : env.tx.commitErr = none) :
    ∃ evs, RefreshDataWith cap env =
        (.openFile none :: .read (.record hd) :: .txBegin none :: evs, .ok) ∧
      OkRun cap [] [] [] 0 rs evs := by
  have hq := loop_quiet cap rs env.tx [] [] [] 0 0 hrs hexec hcommit
  have hr : RefreshDataWith cap env =
      (.openFile none :: .read (.record hd) :: .txBegin none ::
        (loop cap (rs.map .fields) 15 env.tx [] [] [] 0 0).1, .ok) := by
    simp [RefreshDataWith, hopen, hlines, hbegin, readRecord, hhd, hq]
  obtain ⟨rs1, hrs1, hrun⟩ := loop_ok cap (rs.map .fields) 15 env.tx [] [] [] 0 0 _
    (Prod.ext rfl hq)
  have hinj : rs1 = rs := by
    have : Function.Injective Line.fields := fun a b hab => by cases hab; rfl
    exact (List.map_injective_iff.2 this hrs1).symm
  subst hinj
  exact ⟨_, hr, hrun⟩

theorem storeAfter_ok (s : Store) {cap : Nat} {hd : List String} {rs : List (List String)}
    {evs : List Event} (hrun : OkRun cap [] [] [] 0 rs evs) :
    storeAfter s (.openFile none :: .read (.record hd) :: .txBegin none :: evs) =
      s.written (rs.filterMap customerRow) (rs.filterMap productRow)
        (rs.filterMap orderRow) := by
  simp only [storeAfter, DB.run_cons, DB.step]
  rw [hrun.store Buffered.empty s s]
  simp

theorem OkRun.rows {cap : Nat} {customers products orders : List (List String)} {count : Nat}
    {rs : List (List String)} {evs : List Event}
    (h : OkRun cap customers products orders count rs evs)
    (hb : Buffered customers products orders count) (table : Table) :
    ((batchesOf evs).map (bufferOf table)).flatten =
      bufferOf table (customers, products, orders) ++ rs.filterMap (rowOf table) := by
  induction h with
  | eof customers products orders =>
    have h0 := hb.bufferOf_length table
    have : bufferOf table (customers, products, orders) = [] := List.length_eq_zero.1 h0
    simp [batchesOf, this]
  | final customers products orders count h0 =>
    rw [List.cons_append, batchesOf_cons_read, batchesOf_append, batchesOf_batchEvents]
    simp [batchesOf]
  | keep hp hlt _ ih =>
    rw [batchesOf_cons_read, ih (hb.snoc hp)]
    rw [List.filterMap_cons, projections_rowOf hp table]
    cases table <;> simp [bufferOf]
  | flush hp hge _ ih =>
    rw [List.cons_append, batchesOf_cons_read, batchesOf_append, batchesOf_batchEvents,
      List.map_append, List.flatten_append, ih Buffered.empty]
    rw [List.filterMap_cons, projections_rowOf hp table]
    cases table <;> simp [bufferOf]

theorem OkRun.args_batches {cap : Nat} {customers products orders : List (List String)}
    {count : Nat} {rs : List (List String)} {evs : List Event}
    (h : OkRun cap customers products orders count rs evs) (table : Table) :
    argsOf table evs = (batchesOf evs).map (fun b => flattenVals (bufferOf table b)) := by
  induction h with
  | eof customers products orders => simp [argsOf, batchesOf]
  | final customers products orders count h0 =>
    rw [List.cons_append, batchesOf_cons_read, batchesOf_append, batchesOf_batchEvents,
      argsOf_cons_read, argsOf_append, argsOf_batchEvents]
    simp [argsOf, batchesOf, flattenVals_eq]
  | keep hp hlt _ ih =>
    rw [batchesOf_cons_read, argsOf_cons_read, ih]
  | flush hp hge _ ih =>
    rw [List.cons_append, batchesOf_cons_read, batchesOf_append, batchesOf_batchEvents,
      argsOf_cons_read, argsOf_append, argsOf_batchEvents, ih]
    simp [flattenVals_eq]

theorem filterMap_rowOf_length (table : Table) : ∀ (rs : List (List String)),
    (∀ r ∈ rs, r.length = 15) → (rs.filterMap (rowOf table)).length = rs.length := by
  intro rs
  induction rs with
  | nil => intro _; rfl
  | cons r rs ih =>
    intro h
    obtain ⟨c, p, o, hp⟩ := projections_isSome (h r (List.mem_cons_self _ _))
    rw [List.filterMap_cons, projections_rowOf hp table]
    simp [ih (fun x hx => h x (List.mem_cons_of_mem _ hx))]

theorem batchesOf_start (hd : List String) (evs : List Event) :
    batchesOf (.openFile none :: .read (.record hd) :: .txBegin none :: evs) = batchesOf evs := by
  simp [batchesOf]

theorem argsOf_start (table : Table) (hd : List String) (evs : List Event) :
    argsOf table (.openFile none :: .read (.record hd) :: .txBegin none :: evs) =
      argsOf table evs := by
  simp [argsOf]

theorem commitsOf_start (hd : List String) (evs : List Event) :
    commitsOf (.openFile none :: .read (.record hd) :: .txBegin none :: evs) =
      commitsOf evs := by
  simp [commitsOf]

theorem batchSizes_length (n : Nat) : (batchSizes 1000 n).length = (n + 999) / 1000 := by
  unfold batchSizes
  by_cases h : n % 1000 = 0
  · simp only [h, if_true, List.append_nil, List.length_replicate]
    omega
  · simp only [h, if_false, List.length_append, List.length_replicate, List.length_singleton]
    omega

/-! ## The claims -/

/-- C1. Batch-size invariant. On a source with a 15-field header and `R`
15-field data rows, and a store on which no operation fails, `RefreshData`
returns `nil`; `executeBatch` is called `ceil(R / 1000)` times; the three
buffers of every call hold 1000 rows each, except that the last call holds
`R mod 1000` rows when that is not 0; there is no call when `R = 0`; `Commit`
is called exactly once, with success, and `Rollback` never. -/
theorem C1_batch_size_invariant (env : Env) (hd : List String) (rs : List (List String))
    (hopen : env.openErr = none) (hlines : env.lines = .fields hd :: rs.map .fields)
    (hhd : hd.length = 15) (hrs : ∀ r ∈ rs, r.length = 15) (hbegin : env.beginErr = none)
    (hexec : ∀ k, env.tx.execErr k = none) (hcommit : env.tx.commitErr = none) :
    (RefreshData env).2 = .ok ∧
    (batchesOf (RefreshData env).1).length = (rs.length + 999) / 1000 ∧
    (batchesOf (RefreshData env).1).map (fun b => (b.1.length, b.2.1.length, b.2.2.length)) =
      (List.replicate (rs.length / 1000) 1000 ++
        (if rs.length % 1000 = 0 then [] else [rs.length % 1000])).map (fun n => (n, n, n)) ∧
    commitsOf (RefreshData env).1 = [none] ∧
    Event.rollback ∉ (RefreshData env).1 := by
  obtain ⟨evs, hr, hrun⟩ :=
    RefreshDataWith_quiet batchSize env hd rs hopen hlines hhd hrs hbegin hexec hcommit
  have hsz := hrun.sizes Buffered.empty (by decide)
  rw [Nat.zero_add] at hsz
  obtain ⟨hc1, hc2⟩ := hrun.commits
  have hr1 : RefreshData env =
      (.openFile none :: .read (.record hd) :: .txBegin none :: evs, .ok) := hr
  rw [hr1]
  refine ⟨rfl, ?_, ?_, ?_, ?_⟩
  · have := congrArg List.length hsz
    simp only [List.length_map] at this
    rw [batchesOf_start, this]
    exact batchSizes_length rs.length
  · rw [batchesOf_start, hsz]
    rfl
  · rw [commitsOf_start, hc1]
  · simp [hc2]

/-- C1, at 2,500 rows: three calls of `executeBatch`, with 1000, 1000 and 500
rows, and one commit. -/
theorem C1_batch_size_witness :
    (RefreshData (envRows 2500)).2 = .ok ∧
    (batchesOf (RefreshData (envRows 2500)).1).length = 3 ∧
    (batchesOf (RefreshData (envRows 2500)).1).map
        (fun b => (b.1.length, b.2.1.length, b.2.2.length)) =
      [(1000, 1000, 1000), (1000, 1000, 1000), (500, 500, 500)] ∧
    commitsOf (RefreshData (envRows 2500)).1 = [none] := by
  have h := C1_batch_size_invariant (envRows 2500) sampleHeader
    (List.replicate 2500 sampleRecord) rfl rfl rfl
    (fun r hr => by rw [List.eq_of_mem_replicate hr]; rfl) rfl (fun _ => rfl) rfl
  simp only [List.length_replicate] at h
  exact ⟨h.1, h.2.1, h.2.2.1, h.2.2.2.1⟩

theorem failureCause_of_reported {e : Event} {msg : String} (h : reported e msg) :
    ∃ cause, failureCause e = some cause := by
  cases e with
  | read res =>
    cases res with
    | err cause => exact ⟨cause, rfl⟩
    | record r => exact absurd h (by simp [reported])
    | eof => exact absurd h (by simp [reported])
  | exec t g a res =>
    cases res with
    | some cause => exact ⟨cause, rfl⟩
    | none => exact absurd h (by simp [reported])
  | commit res =>
    cases res with
    | some cause => exact ⟨cause, rfl⟩
    | none => exact absurd h (by simp [reported])
  | openFile err => exact absurd h (by simp [reported])
  | txBegin err => exact absurd h (by simp [reported])
  | batch c p o => exact absurd h (by simp [reported])
  | rollback => exact absurd h (by simp [reported])

theorem DB.run_rollback_last (db : DB) (evs : List Event) :
    (DB.run db (evs ++ [.rollback])).pending = none := by
  rw [DB.run_append]
  rfl

/-- A run in which the transaction was begun opened the file, read the
header, began the transaction and went on with the loop. -/
theorem RefreshData_begun {env : Env} (hbegun : Event.txBegin none ∈ (RefreshData env).1) :
    ∃ hd rest, RefreshData env =
        (.openFile none :: .read (.record hd) :: .txBegin none ::
          (loop batchSize rest hd.length env.tx [] [] [] 0 0).1,
         (loop batchSize rest hd.length env.tx [] [] [] 0 0).2) := by
  rcases RefreshDataWith_cases batchSize env with
    ⟨e, _, hr⟩ | ⟨_, _, hr⟩ | ⟨_, c, rest, _, hr⟩ | ⟨_, hd, rest, e, _, _, hr⟩ |
    ⟨_, hd, rest, hl, _, hr⟩
  · rw [show RefreshData env = _ from hr] at hbegun; simp at hbegun
  · rw [show RefreshData env = _ from hr] at hbegun; simp at hbegun
  · rw [show RefreshData env = _ from hr] at hbegun; simp at hbegun
  · rw [show RefreshData env = _ from hr] at hbegun; simp at hbegun
  · exact ⟨hd, rest, hr⟩

/-- C2. Atomicity. In a run of `RefreshData` in which the transaction was
begun: (1) if an operation fails (a record cannot be decoded, a statement
fails, `Commit` fails), then `RefreshData` returns an error, the one built
from that failure; the failed operation is followed by `Rollback` and by
nothing else; every operation before it succeeded and none of them is a commit
or a rollback, so no commit succeeded; and over the store model the database
after the run is the one before it, with nothing pending. (2) Conversely every
error returned comes from such a failed operation. (3) In every run that does
not return `nil` no commit succeeded and the content of the store is
unchanged. -/
theorem C2_atomicity (env : Env) (hbegun : Event.txBegin none ∈ (RefreshData env).1) :
    (∀ e cause, e ∈ (RefreshData env).1 → failureCause e = some cause →
      ∃ msg pre, (RefreshData env).2 = .error msg ∧
        (RefreshData env).1 = pre ++ [e, .rollback] ∧ reported e msg ∧
        (∀ x ∈ pre, quiet x) ∧
        Event.commit none ∉ (RefreshData env).1 ∧
        ∀ s, DB.run { committed := s, pending := none } (RefreshData env).1 =
          { committed := s, pending := none }) ∧
    (∀ msg, (RefreshData env).2 = .error msg →
      ∃ pre e cause, failureCause e = some cause ∧
        (RefreshData env).1 = pre ++ [e, .rollback] ∧ reported e msg ∧ ∀ x ∈ pre, quiet x) ∧
    ((RefreshData env).2 ≠ .ok →
      Event.commit none ∉ (RefreshData env).1 ∧
      ∀ s, storeAfter s (RefreshData env).1 = s) := by
  obtain ⟨hd, rest, hr⟩ := RefreshData_begun hbegun
  have hrun := loop_run batchSize rest hd.length env.tx [] [] [] 0 0
  have hshape : ∀ msg, (RefreshData env).2 = .error msg →
      ∃ pre e, (RefreshData env).1 = pre ++ [e, .rollback] ∧ reported e msg ∧
        ∀ x ∈ pre, quiet x := by
    intro msg hfail
    rw [hr] at hfail ⊢
    obtain ⟨pre, e, h1, h2, h3⟩ := hrun.failed msg hfail
    refine ⟨.openFile none :: .read (.record hd) :: .txBegin none :: pre, e, ?_, h2, ?_⟩
    · simp only [h1, List.cons_append]
    · intro x hx
      simp only [List.mem_cons] at hx
      rcases hx with rfl | rfl | rfl | hx
      · simp [quiet, failureCause]
      · exact quiet_read_record _
      · simp [quiet, failureCause]
      · exact h3 x hx
  have hnocommit : (RefreshData env).2 ≠ .ok → Event.commit none ∉ (RefreshData env).1 := by
    intro hne hmem
    rw [hr] at hne hmem
    simp only [List.mem_cons] at hmem
    rcases hmem with h | h | h | h
    · cases h
    · cases h
    · cases h
    · exact hne (hrun.ok_of_commit h)
  refine ⟨?_, ?_, ?_⟩
  · intro e cause he hc
    have herr : ∃ msg, (RefreshData env).2 = .error msg := by
      rw [hr] at he ⊢
      simp only [List.mem_cons] at he
      rcases he with h | h | h | h
      · subst h; simp [failureCause] at hc
      · subst h; simp [failureCause] at hc
      · subst h; simp [failureCause] at hc
      · exact hrun.error_of_failure e cause h hc
    obtain ⟨msg, hmsg⟩ := herr
    obtain ⟨pre, e1, h1, h2, h3⟩ := hshape msg hmsg
    have hee : e = e1 := by
      rw [h1] at he
      simp only [List.mem_append, List.mem_cons, List.mem_singleton, List.not_mem_nil,
        or_false] at he
      rcases he with h | h | h
      · rw [failureCause_of_quiet (h3 e h)] at hc
        cases hc
      · exact h
      · subst h
        simp [failureCause] at hc
    subst hee
    have hno : Event.commit none ∉ (RefreshData env).1 :=
      hnocommit (by rw [hmsg]; simp)
    refine ⟨msg, pre, hmsg, h1, h2, h3, hno, ?_⟩
    intro s
    have hcm := DB.committed_of_no_commit (RefreshData env).1
      { committed := s, pending := none } hno
    have hpd : (DB.run { committed := s, pending := none } (RefreshData env).1).pending
        = none := by
      rw [h1, show pre ++ [e, Event.rollback] = (pre ++ [e]) ++ [Event.rollback] by simp]
      exact DB.run_rollback_last _ _
    rcases hdb : DB.run { committed := s, pending := none } (RefreshData env).1 with ⟨c, p⟩
    rw [hdb] at hcm hpd
    simp only at hcm hpd
    rw [hcm, hpd]
  · intro msg hmsg
    obtain ⟨pre, e, h1, h2, h3⟩ := hshape msg hmsg
    obtain ⟨cause, hc⟩ := failureCause_of_reported h2
    exact ⟨pre, e, cause, hc, h1, h2, h3⟩
  · intro hne
    refine ⟨hnocommit hne, ?_⟩
    intro s
    exact DB.committed_of_no_commit _ _ (hnocommit hne)

/-- C2, at three failing runs. A source of 2,500 rows of which record 1,200
has the wrong field count: one batch of 1000 rows is executed, the reader's
error is returned, the run rolls back and the database is as before. A store
whose `Commit` fails, and a store whose statement on products fails: the
error of that operation is returned after a rollback. -/
theorem C2_atomicity_witness :
    ((RefreshData envMalformed).2 = .error ("error reading CSV: " ++ ErrFieldCount) ∧
      (batchesOf (RefreshData envMalformed).1).map (fun b => b.2.2.length) = [1000] ∧
      ∃ msg pre, (RefreshData envMalformed).2 = .error msg ∧
        (RefreshData envMalformed).1 = pre ++ [.read (.err ErrFieldCount), .rollback] ∧
        reported (.read (.err ErrFieldCount)) msg ∧ (∀ x ∈ pre, quiet x) ∧
        Event.commit none ∉ (RefreshData envMalformed).1 ∧
        ∀ s, DB.run { committed := s, pending := none } (RefreshData envMalformed).1 =
          { committed := s, pending := none }) ∧
    ((RefreshData envCommitFails).2 =
        .error "error committing transaction: connection lost" ∧
      ∃ msg pre, (RefreshData envCommitFails).2 = .error msg ∧
        (RefreshData envCommitFails).1 = pre ++ [.commit (some "connection lost"), .rollback] ∧
        reported (.commit (some "connection lost")) msg ∧ (∀ x ∈ pre, quiet x) ∧
        Event.commit none ∉ (RefreshData envCommitFails).1 ∧
        ∀ s, DB.run { committed := s, pending := none } (RefreshData envCommitFails).1 =
          { committed := s, pending := none }) ∧
    ((RefreshData envStatementFails).2 =
        .error "error in final batch: error batch inserting products: deadlock" ∧
      (argsOf .orders (RefreshData envStatementFails).1) = [] ∧
      ∃ msg pre, (RefreshData envStatementFails).2 = .error msg ∧
        (RefreshData envStatementFails).1 = pre ++
          [.exec .products 2 ["P1", "Pen", "Office", "P1", "Pen", "Office"] (some "deadlock"),
           .rollback] ∧
        reported
          (.exec .products 2 ["P1", "Pen", "Office", "P1", "Pen", "Office"] (some "deadlock"))
          msg ∧
        (∀ x ∈ pre, quiet x) ∧
        Event.commit none ∉ (RefreshData envStatementFails).1 ∧
        ∀ s, DB.run { committed := s, pending := none } (RefreshData envStatementFails).1 =
          { committed := s, pending := none }) :=
  ⟨⟨by decide!, by decide!,
      (C2_atomicity envMalformed (by decide!)).1 (.read (.err ErrFieldCount)) ErrFieldCount
        (by decide!) rfl⟩,
    ⟨by decide,
      (C2_atomicity envCommitFails (by decide)).1 (.commit (some "connection lost"))
        "connection lost" (by decide) rfl⟩,
    ⟨by decide, by decide,
      (C2_atomicity envStatementFails (by decide)).1
        (.exec .products 2 ["P1", "Pen", "Office", "P1", "Pen", "Office"] (some "deadlock"))
        "deadlock" (by decide) rfl⟩⟩

/-- C3. Normalisation. For a record of exactly 15 fields the loop body builds,
without panicking, the customer row `[r2, r12, r13, r14]`, the product row
`[r1, r3, r4]` and the order row `[r0, r2, r1, r5, r6, r7, strip r8, r9,
strip r10, r11]`, where `strip` is `TrimPrefix _ "$"`: it removes one leading
"$" and returns any other string unchanged. The loop appends exactly these
rows to the three buffers: below the cap it goes on with the appended buffers,
at the cap it calls `executeBatch` with them. -/
theorem C3_normalisation (a0 a1 a2 a3 a4 a5 a6 a7 a8 a9 a10 a11 a12 a13 a14 : String) :
    projections [a0, a1, a2, a3, a4, a5, a6, a7, a8, a9, a10, a11, a12, a13, a14] =
      some ([a2, a12, a13, a14], [a1, a3, a4],
        [a0, a2, a1, a5, a6, a7, TrimPrefix a8 "$", a9, TrimPrefix a10 "$", a11]) ∧
    TrimPrefix "$19.99" "$" = "19.99" ∧ TrimPrefix "19.99" "$" = "19.99" ∧
    (∀ cs : List Char, TrimPrefix ⟨'$' :: cs⟩ "$" = ⟨cs⟩) ∧
    (∀ s : String, s.data.head? ≠ some '$' → TrimPrefix s "$" = s) ∧
    (∀ (cap : Nat) (rest : List Line) (tx : Tx) (customers products orders : List (List String))
        (count batchNum : Nat), count + 1 < cap →
      loop cap (.fields [a0, a1, a2, a3, a4, a5, a6, a7, a8, a9, a10, a11, a12, a13, a14]
          :: rest) 15 tx customers products orders count batchNum =
        (.read (.record [a0, a1, a2, a3, a4, a5, a6, a7, a8, a9, a10, a11, a12, a13, a14]) ::
          (loop cap rest 15 tx (customers ++ [[a2, a12, a13, a14]]) (products ++ [[a1, a3, a4]])
            (orders ++ [[a0, a2, a1, a5, a6, a7, TrimPrefix a8 "$", a9, TrimPrefix a10 "$",
              a11]]) (count + 1) batchNum).1,
         (loop cap rest 15 tx (customers ++ [[a2, a12, a13, a14]]) (products ++ [[a1, a3, a4]])
            (orders ++ [[a0, a2, a1, a5, a6, a7, TrimPrefix a8 "$", a9, TrimPrefix a10 "$",
              a11]]) (count + 1) batchNum).2)) ∧
    (∀ (cap : Nat) (rest : List Line) (tx : Tx) (customers products orders : List (List String))
        (count batchNum : Nat), cap ≤ count + 1 →
      (loop cap (.fields [a0, a1, a2, a3, a4, a5, a6, a7, a8, a9, a10, a11, a12, a13, a14]
          :: rest) 15 tx customers products orders count batchNum).1.take 2 =
        [.read (.record [a0, a1, a2, a3, a4, a5, a6, a7, a8, a9, a10, a11, a12, a13, a14]),
         .batch (customers ++ [[a2, a12, a13, a14]]) (products ++ [[a1, a3, a4]])
            (orders ++ [[a0, a2, a1, a5, a6, a7, TrimPrefix a8 "$", a9, TrimPrefix a10 "$",
              a11]])]) := by
  refine ⟨rfl, by decide, by decide, trimPrefix_dollar_cons, trimPrefix_dollar_other, ?_, ?_⟩
  · intro cap rest tx customers products orders count batchNum hlt
    exact loop_cons_keep (readRecord_fifteen rfl)
      (projections_fifteen a0 a1 a2 a3 a4 a5 a6 a7 a8 a9 a10 a11 a12 a13 a14) hlt
  · intro cap rest tx customers products orders count batchNum hge
    have hrun := loop_run cap
      (.fields [a0, a1, a2, a3, a4, a5, a6, a7, a8, a9, a10, a11, a12, a13, a14] :: rest)
      15 tx customers products orders count batchNum
    have hread : readRecord 15
        (.fields [a0, a1, a2, a3, a4, a5, a6, a7, a8, a9, a10, a11, a12, a13, a14]) =
        (.ok [a0, a1, a2, a3, a4, a5, a6, a7, a8, a9, a10, a11, a12, a13, a14], 15) :=
      readRecord_fifteen rfl
    have hp := projections_fifteen a0 a1 a2 a3 a4 a5 a6 a7 a8 a9 a10 a11 a12 a13 a14
    rcases hb : executeBatch tx (customers ++ [[a2, a12, a13, a14]])
        (products ++ [[a1, a3, a4]])
        (orders ++ [[a0, a2, a1, a5, a6, a7, TrimPrefix a8 "$", a9, TrimPrefix a10 "$", a11]])
      with ⟨bevs, res, tx1⟩
    cases res with
    | none => rw [loop_cons_flush hread hp hge hb]; rfl
    | some err =>
      have hn : count + 1 ≥ cap := hge
      rw [loop]
      simp [hread, hp, hn, hb]

/-- C3, at the sample record and a store that fails nothing. -/
theorem C3_normalisation_witness :
    TrimPrefix "9.50" "$" = "9.50" ∧
    (loop 1000 [.fields sampleRecord] 15 quietTx [] [] [] 0 0).1.take 1 =
      [.read (.record sampleRecord)] ∧
    (loop 1 [.fields sampleRecord] 15 quietTx [] [] [] 0 0).1.take 2 =
      [.read (.record sampleRecord),
       .batch [["C1", "Ann", "ann@example.com", "1 Main St"]] [["P1", "Pen", "Office"]]
         [["O1", "C1", "P1", "East", "2024-01-01", "2", "9.50", "0.1", "2.00", "card"]]] := by
  have h := C3_normalisation "O1" "P1" "C1" "Pen" "Office" "East" "2024-01-01" "2" "$9.50"
    "0.1" "$2.00" "card" "Ann" "ann@example.com" "1 Main St"
  refine ⟨h.2.2.2.2.1 "9.50" (by decide), ?_, ?_⟩
  · have h1 := h.2.2.2.2.2.1 1000 [] quietTx [] [] [] 0 0 (by decide)
    exact (congrArg (fun x => x.1.take 1) h1).trans rfl
  · exact (h.2.2.2.2.2.2 1 [] quietTx [] [] [] 0 0 (by decide)).trans (by decide)

/-- C4, refuted as stated. A file whose header and data row both have three
fields: the data row has the field count of the header, so the reader accepts
it, and the index expression `record[12]` of the loop body is out of range:
the run panics, with no "error reading CSV" and no rollback. -/
theorem C4_counterexample :
    RefreshData envThreeColumns =
      ([.openFile none, .read (.record ["id", "name", "price"]), .txBegin none,
        .read (.record ["1", "pen", "$2"])], .panic) := by
  decide

/-- C4, amended. The arity the reader expects is the field count `n` of the
header line. A data line with another field count makes the loop stop with
"error reading CSV: wrong number of fields" and a rollback before the line is
normalised; every record read in a run therefore has `n` fields; and when
`n` is at least 15 no index expression of the loop body is out of range: the
run does not panic. -/
theorem C4_header_arity (env : Env) (hd : List String) (rest : List Line)
    (hlines : env.lines = .fields hd :: rest) (hpos : 0 < hd.length) :
    (∀ (fs : List String) (more : List Line) (tx : Tx)
        (customers products orders : List (List String)) (count batchNum : Nat),
      fs.length ≠ hd.length →
      loop batchSize (.fields fs :: more) hd.length tx customers products orders count batchNum =
        ([.read (.err ErrFieldCount), .rollback],
          .error "error reading CSV: wrong number of fields")) ∧
    (∀ r, Event.read (.record r) ∈ (RefreshData env).1 → r.length = hd.length) ∧
    (15 ≤ hd.length → (RefreshData env).2 ≠ .panic) := by
  refine ⟨?_, ?_, ?_⟩
  · intro fs more tx customers products orders count batchNum hne
    rw [loop]
    simp only [readRecord_mismatch hpos hne]
    rfl
  · intro r hr
    rcases RefreshDataWith_cases batchSize env with
      ⟨e, _, h⟩ | ⟨_, _, h⟩ | ⟨_, c, rest1, _, h⟩ | ⟨_, hd1, rest1, e, hl, _, h⟩ |
      ⟨_, hd1, rest1, hl, _, h⟩
    · rw [show RefreshData env = _ from h] at hr; simp at hr
    · rw [show RefreshData env = _ from h] at hr; simp at hr
    · rw [show RefreshData env = _ from h] at hr; simp at hr
    · rw [hlines] at hl
      simp only [List.cons.injEq, Line.fields.injEq] at hl
      rw [show RefreshData env = _ from h] at hr
      simp only [List.mem_cons, Event.read.injEq, ReadResult.record.injEq,
        List.mem_singleton, List.not_mem_nil, or_false] at hr
      rcases hr with h1 | h1 | h1
      · cases h1
      · rw [h1, hl.1]
      · cases h1
    · rw [hlines] at hl
      simp only [List.cons.injEq, Line.fields.injEq] at hl
      obtain ⟨rfl, rfl⟩ := hl
      rw [show RefreshData env = _ from h] at hr
      simp only [List.mem_cons, Event.read.injEq, ReadResult.record.injEq] at hr
      rcases hr with h1 | h1 | h1 | h1
      · cases h1
      · rw [h1]
      · cases h1
      · exact (loop_run batchSize rest hd.length env.tx [] [] [] 0 0).record_length hpos r h1
  · intro h15
    rcases RefreshDataWith_cases batchSize env with
      ⟨e, _, h⟩ | ⟨_, _, h⟩ | ⟨_, c, rest1, _, h⟩ | ⟨_, hd1, rest1, e, hl, _, h⟩ |
      ⟨_, hd1, rest1, hl, _, h⟩
    · rw [show RefreshData env = _ from h]; simp
    · rw [show RefreshData env = _ from h]; simp
    · rw [show RefreshData env = _ from h]; simp
    · rw [show RefreshData env = _ from h]; simp
    · rw [hlines] at hl
      simp only [List.cons.injEq, Line.fields.injEq] at hl
      obtain ⟨rfl, rfl⟩ := hl
      rw [show RefreshData env = _ from h]
      exact (loop_run batchSize rest hd.length env.tx [] [] [] 0 0).no_panic h15

/-- C4, on a 15-column source: a three-field line met by the loop is rejected,
and a run over two well-formed rows does not panic. -/
theorem C4_header_arity_witness :
    loop batchSize [.fields ["O2", "P2", "C2"]] 15 quietTx [] [] [] 0 0 =
      ([.read (.err ErrFieldCount), .rollback],
        .error "error reading CSV: wrong number of fields") ∧
    (RefreshData (envRows 2)).2 ≠ .panic :=
  ⟨(C4_header_arity (envRows 2) sampleHeader _ rfl (by decide)).1
      ["O2", "P2", "C2"] [] quietTx [] [] [] 0 0 (by decide),
    (C4_header_arity (envRows 2) sampleHeader _ rfl (by decide)).2.2 (by decide)⟩

/-- C5, refuted as stated. A unit price written "$$9.50" is handed to the
store as "$9.50", which begins with "$". -/
theorem C5_counterexample :
    orderRow doubleDollarRecord =
      some ["O1", "C1", "P1", "East", "2024-01-01", "2", "$9.50", "0.1", "2.00", "card"] ∧
    HasPrefix "$9.50" "$" = true := by
  decide

/-- C5, amended. For a 15-field record the 7th and the 9th field of the order
row are the source fields `r8` and `r10` with one leading "$" removed; such a
field begins with "$" exactly when the source field begins with "$$". -/
theorem C5_monetary_fields (a0 a1 a2 a3 a4 a5 a6 a7 a8 a9 a10 a11 a12 a13 a14 : String) :
    ∃ o, orderRow [a0, a1, a2, a3, a4, a5, a6, a7, a8, a9, a10, a11, a12, a13, a14] = some o ∧
      o.get? 6 = some (TrimPrefix a8 "$") ∧ o.get? 8 = some (TrimPrefix a10 "$") ∧
      (HasPrefix (TrimPrefix a8 "$") "$" = true ↔ HasPrefix a8 "$$" = true) ∧
      (HasPrefix (TrimPrefix a10 "$") "$" = true ↔ HasPrefix a10 "$$" = true) :=
  ⟨_, rfl, rfl, rfl, hasPrefix_trimPrefix_dollar a8, hasPrefix_trimPrefix_dollar a10⟩

/-- C6. Statement order and short-circuit. `executeBatch` issues the upsert on
customers, then the one on products, then the one on orders, each with the
rows of its buffer, and stops at the first that fails: the statements issued
are the failed one and the successful ones before it, at most three, and the
error names the table of the failed statement. It returns `nil` exactly when
all three statements were issued and succeeded. -/
theorem C6_statement_order (tx : Tx) (customers products orders : List (List String)) :
    ((∃ cause, tx.execErr 0 = some cause ∧
        (executeBatch tx customers products orders).1 =
          [.exec .customers customers.length (flattenVals customers) (some cause)] ∧
        (executeBatch tx customers products orders).2.1 =
          some ("error batch inserting customers: " ++ cause)) ∨
      (∃ cause, tx.execErr 0 = none ∧ tx.execErr 1 = some cause ∧
        (executeBatch tx customers products orders).1 =
          [.exec .customers customers.length (flattenVals customers) none,
           .exec .products products.length (flattenVals products) (some cause)] ∧
        (executeBatch tx customers products orders).2.1 =
          some ("error batch inserting products: " ++ cause)) ∨
      (∃ cause, tx.execErr 0 = none ∧ tx.execErr 1 = none ∧ tx.execErr 2 = some cause ∧
        (executeBatch tx customers products orders).1 =
          [.exec .customers customers.length (flattenVals customers) none,
           .exec .products products.length (flattenVals products) none,
           .exec .orders orders.length (flattenVals orders) (some cause)] ∧
        (executeBatch tx customers products orders).2.1 =
          some ("error batch inserting orders: " ++ cause)) ∨
      (tx.execErr 0 = none ∧ tx.execErr 1 = none ∧ tx.execErr 2 = none ∧
        (executeBatch tx customers products orders).1 =
          [.exec .customers customers.length (flattenVals customers) none,
           .exec .products products.length (flattenVals products) none,
           .exec .orders orders.length (flattenVals orders) none] ∧
        (executeBatch tx customers products orders).2.1 = none)) ∧
    ((executeBatch tx customers products orders).2.1 = none ↔
      (executeBatch tx customers products orders).1 =
        [.exec .customers customers.length (flattenVals customers) none,
         .exec .products products.length (flattenVals products) none,
         .exec .orders orders.length (flattenVals orders) none]) ∧
    (executeBatch tx customers products orders).1.length ≤ 3 := by
  rcases executeBatch_cases tx customers products orders with
    ⟨c, h0, h1, h2⟩ | ⟨c, h0, h1, h2, h3⟩ | ⟨c, h0, h1, h2, h3, h4⟩ |
    ⟨h0, h1, h2, h3, h4, _⟩
  · exact ⟨Or.inl ⟨c, h0, h1, h2⟩, by rw [h1, h2]; simp, by rw [h1]; simp⟩
  · exact ⟨Or.inr (Or.inl ⟨c, h0, h1, h2, h3⟩), by rw [h2, h3]; simp, by rw [h2]; simp⟩
  · exact ⟨Or.inr (Or.inr (Or.inl ⟨c, h0, h1, h2, h3, h4⟩)), by rw [h3, h4]; simp,
      by rw [h3]; simp⟩
  · exact ⟨Or.inr (Or.inr (Or.inr ⟨h0, h1, h2, h3, h4⟩)), by rw [h3, h4]; simp,
      by rw [h3]; simp⟩

/-- C7. Idempotence. Over the store model, two successful runs of
`RefreshData` on the same source, one after the other, leave the store with
the content the first run left. -/
theorem C7_idempotence (env1 env2 : Env) (s : Store) (hsame : env2.lines = env1.lines)
    (h1 : (RefreshData env1).2 = .ok) (h2 : (RefreshData env2).2 = .ok) :
    storeAfter (storeAfter s (RefreshData env1).1) (RefreshData env2).1 =
      storeAfter s (RefreshData env1).1 := by
  obtain ⟨hd1, rs1, evs1, hl1, ht1, hrun1⟩ := RefreshDataWith_ok h1
  obtain ⟨hd2, rs2, evs2, hl2, ht2, hrun2⟩ := RefreshDataWith_ok h2
  have hrs : rs2 = rs1 := by
    rw [hsame, hl1] at hl2
    simp only [List.cons.injEq] at hl2
    have : Function.Injective Line.fields := fun a b hab => by cases hab; rfl
    exact (List.map_injective_iff.2 this hl2.2).symm
  subst hrs
  rw [show (RefreshData env1).1 = _ from ht1, show (RefreshData env2).1 = _ from ht2,
    storeAfter_ok _ hrun1, storeAfter_ok _ hrun2, Store.written_idem]

/-- C7, on a source of two rows and the empty store. -/
theorem C7_idempotence_witness :
    storeAfter (storeAfter emptyStore (RefreshData (envRows 2)).1) (RefreshData (envRows 2)).1 =
      storeAfter emptyStore (RefreshData (envRows 2)).1 ∧
    (storeAfter emptyStore (RefreshData (envRows 2)).1).orders "O1" =
      some ["C1", "P1", "East", "2024-01-01", "2", "9.50", "0.1", "2.00", "card"] ∧
    (storeAfter emptyStore (RefreshData (envRows 2)).1).customers "C1" =
      some ["Ann", "ann@example.com", "1 Main St"] :=
  ⟨C7_idempotence (envRows 2) (envRows 2) emptyStore rfl (by decide) (by decide),
    by decide, by decide⟩

/-- C8. Referential ordering. In every run of `RefreshData` every statement on
orders comes right after the successful statements on customers and on
products of the same call of `executeBatch`, and every order row it carries
names in its 2nd field the identifier of a row of that customers statement and
in its 3rd field the identifier of a row of that products statement
(`RefOrdered`). Hence, over the store model, after a run that returns `nil`
the customer and the product named by any order row of any orders statement
are in the store, and a store in which every order row had its customer and
its product still has that property. -/
theorem C8_referential_ordering (env : Env) :
    RefOrdered (RefreshData env).1 ∧
    ((RefreshData env).2 = .ok → ∀ s : Store,
      (∀ groups args res, Event.exec .orders groups args res ∈ (RefreshData env).1 →
        ∀ row ∈ stmtRows .orders groups args,
          ∃ id cust prod fields, row = id :: cust :: prod :: fields ∧
            ((storeAfter s (RefreshData env).1).customers cust).isSome ∧
            ((storeAfter s (RefreshData env).1).products prod).isSome) ∧
      (RefClosed s → RefClosed (storeAfter s (RefreshData env).1))) := by
  have href : RefOrdered (RefreshData env).1 := by
    rcases RefreshDataWith_cases batchSize env with
      ⟨e, _, hr⟩ | ⟨_, _, hr⟩ | ⟨_, c, rest, _, hr⟩ | ⟨_, hd, rest, e, _, _, hr⟩ |
      ⟨_, hd, rest, hl, _, hr⟩ <;> rw [show RefreshData env = _ from hr]
    · exact RefOrdered.cons (by simp) RefOrdered.nil
    · exact RefOrdered.cons (by simp) (RefOrdered.cons (by simp) RefOrdered.nil)
    · exact RefOrdered.cons (by simp) (RefOrdered.cons (by simp) RefOrdered.nil)
    · exact RefOrdered.cons (by simp) (RefOrdered.cons (by simp)
        (RefOrdered.cons (by simp) RefOrdered.nil))
    · exact RefOrdered.cons (by simp) (RefOrdered.cons (by simp) (RefOrdered.cons (by simp)
        ((loop_run batchSize rest hd.length env.tx [] [] [] 0 0).refOrdered Buffered.empty)))
  refine ⟨href, ?_⟩
  intro hok s
  obtain ⟨hd, rs, evs, hl, ht, hrun⟩ := RefreshDataWith_ok hok
  have ht1 : (RefreshData env).1 =
      .openFile none :: .read (.record hd) :: .txBegin none :: evs := ht
  have hproj := hrun.projected
  rw [ht1, storeAfter_ok s hrun]
  refine ⟨?_, refClosed_written hproj s⟩
  intro groups args res hmem row hrow
  obtain ⟨pre, post, hsplit⟩ := List.append_of_mem hmem
  rw [← ht1] at hsplit
  obtain ⟨pre1, c, p, o, hpre, _, _, _, _, hrows, _⟩ := href pre post groups args res hsplit
  rw [hrows] at hrow
  have hbatch : Event.batch c p o ∈ evs := by
    have : Event.batch c p o ∈ (RefreshData env).1 := by
      rw [hsplit, hpre]; simp
    rw [ht1] at this
    simpa using this
  have := hrun.batch_mem c p o hbatch row hrow
  simp only [List.nil_append] at this
  exact order_refs_written hproj s row this

/-- C8, on a source of two rows and the empty store. -/
theorem C8_referential_ordering_witness :
    RefOrdered (RefreshData (envRows 2)).1 ∧
    Event.exec .orders 2
      ["O1", "C1", "P1", "East", "2024-01-01", "2", "9.50", "0.1", "2.00", "card",
       "O1", "C1", "P1", "East", "2024-01-01", "2", "9.50", "0.1", "2.00", "card"] none
      ∈ (RefreshData (envRows 2)).1 ∧
    RefClosed (storeAfter emptyStore (RefreshData (envRows 2)).1) ∧
    ((storeAfter emptyStore (RefreshData (envRows 2)).1).customers "C1").isSome ∧
    ((storeAfter emptyStore (RefreshData (envRows 2)).1).products "P1").isSome :=
  ⟨(C8_referential_ordering (envRows 2)).1, by decide,
    ((C8_referential_ordering (envRows 2)).2 (by decide) emptyStore).2
      (fun _ _ h => by cases h),
    by decide, by decide⟩

/-- C9, refuted as stated. When the file cannot be opened, and when the header
cannot be read, no transaction is begun and nothing is rolled back; in a run
that gets further the transaction is begun third, after the file was opened
and the header read. -/
theorem C9_counterexample :
    RefreshData envNoFile =
      ([.openFile (some "open ./data/data.csv: no such file or directory")],
        .error "error opening file: open ./data/data.csv: no such file or directory") ∧
    RefreshData envEmptyFile =
      ([.openFile none, .read .eof], .error "error reading header: EOF") ∧
    (RefreshData (envRows 1)).1.take 3 =
      [.openFile none, .read (.record sampleHeader), .txBegin none] := by
  decide

/-- C9, amended. `RefreshData` opens the source and reads the header line
first. If the open fails, or the header cannot be read, it returns that
failure and has begun no transaction and rolled nothing back. Otherwise it
begins the transaction as its third step, once in the run, before any data
line is read. -/
theorem C9_begin_after_header (env : Env) :
    (∃ e, env.openErr = some e ∧
      RefreshData env = ([.openFile (some e)], .error ("error opening file: " ++ e))) ∨
    (env.openErr = none ∧ ∃ res cause, (res = .eof ∨ res = .err cause) ∧
      RefreshData env =
        ([.openFile none, .read res], .error ("error reading header: " ++ cause))) ∨
    (env.openErr = none ∧ ∃ hd rest b, env.lines.head? = some (.fields hd) ∧
      env.beginErr = b ∧
      (RefreshData env).1 = .openFile none :: .read (.record hd) :: .txBegin b :: rest ∧
      ∀ e ∈ rest, (∀ err, e ≠ .txBegin err) ∧ (∀ err, e ≠ .openFile err)) := by
  rcases RefreshDataWith_cases batchSize env with
    ⟨e, he, hr⟩ | ⟨ho, _, hr⟩ | ⟨ho, c, rest, _, hr⟩ | ⟨ho, hd, rest, e, hl, hb, hr⟩ |
    ⟨ho, hd, rest, hl, hb, hr⟩
  · exact Or.inl ⟨e, he, hr⟩
  · exact Or.inr (Or.inl ⟨ho, .eof, "EOF", Or.inl rfl, hr⟩)
  · exact Or.inr (Or.inl ⟨ho, .err c, c, Or.inr rfl, hr⟩)
  · refine Or.inr (Or.inr ⟨ho, hd, [], some e, by rw [hl]; rfl, hb, ?_, by simp⟩)
    rw [show RefreshData env = _ from hr]
  · refine Or.inr (Or.inr ⟨ho, hd, _, none, by rw [hl]; rfl, hb, ?_,
      (loop_run batchSize rest hd.length env.tx [] [] [] 0 0).no_begin⟩)
    rw [show RefreshData env = _ from hr]

/-- C10. Flushed batches partition the input. On a source with a 15-field
header and 15-field data rows `rs`, and a store on which no operation fails,
for each table: every statement carries the rows of the buffer of its call of
`executeBatch`; the buffers of the successive calls, put end to end, are the
rows built from `rs` in source order, one per data row; and so are the
argument lists of the successive statements. No row is dropped, repeated or
merged with another of the same identifier. -/
theorem C10_batches_partition_input (env : Env) (hd : List String) (rs : List (List String))
    (hopen : env.openErr = none) (hlines : env.lines = .fields hd :: rs.map .fields)
    (hhd : hd.length = 15) (hrs : ∀ r ∈ rs, r.length = 15) (hbegin : env.beginErr = none)
    (hexec : ∀ k, env.tx.execErr k = none) (hcommit : env.tx.commitErr = none)
    (table : Table) :
    argsOf table (RefreshData env).1 =
      (batchesOf (RefreshData env).1).map (fun b => flattenVals (bufferOf table b)) ∧
    ((batchesOf (RefreshData env).1).map (bufferOf table)).flatten =
      rs.filterMap (rowOf table) ∧
    (argsOf table (RefreshData env).1).flatten = (rs.filterMap (rowOf table)).flatten ∧
    (rs.filterMap (rowOf table)).length = rs.length := by
  obtain ⟨evs, hr, hrun⟩ :=
    RefreshDataWith_quiet batchSize env hd rs hopen hlines hhd hrs hbegin hexec hcommit
  have hr1 : RefreshData env =
      (.openFile none :: .read (.record hd) :: .txBegin none :: evs, .ok) := hr
  rw [hr1]
  simp only [argsOf_start, batchesOf_start]
  refine ⟨hrun.args_batches table, ?_, ?_, filterMap_rowOf_length table rs hrs⟩
  · have := hrun.rows Buffered.empty table
    rw [this]
    cases table <;> simp [bufferOf]
  · have := hrun.args Buffered.empty table
    rw [this]
    cases table <;> simp [bufferOf]

/-- C10, on three rows: one statement per table, carrying the three rows in
source order, the repeated identifier included three times. -/
theorem C10_batches_partition_witness :
    argsOf .products (RefreshData (envRows 3)).1 =
      [["P1", "Pen", "Office", "P1", "Pen", "Office", "P1", "Pen", "Office"]] ∧
    (argsOf .products (RefreshData (envRows 3)).1).flatten =
      ((List.replicate 3 sampleRecord).filterMap productRow).flatten := by
  have h := C10_batches_partition_input (envRows 3) sampleHeader
    (List.replicate 3 sampleRecord) rfl rfl rfl
    (fun r hr => by rw [List.eq_of_mem_replicate hr]; rfl) rfl (fun _ => rfl) rfl .products
  exact ⟨by decide, h.2.2.1⟩

end SalesAnalysis
